import Mathlib

/-!
Ricart–Agrawala file system simulation (`ricart.go`)

A shallow embedding of the single-process simulation in `ricart.go`.

* Go pointers `*File` are addresses (indices) into an explicit heap of `File`
  records; dereferencing an address that is not allocated is the nil
  dereference of the source and makes the operation fail (`none`).
* Go `int` is `Int`; indexing a slice with a negative index is the runtime
  panic of the source and makes the operation fail (`none`).
* `go fs.SendRequest(..)` does not run the call: it adds it to the set of
  spawned goroutines, which run later, one at a time, each body being atomic
  under `AcknowledgeMutex`.
* The disk (`ioutil.ReadFile`, `ioutil.WriteFile`) is external: its answers
  are arguments of the operations.  The lines appended to the log file are
  kept; what is printed on standard output is not part of the state.
* A method call is one state transformer. `ReadFile` and `WriteFile` hold
  `RequestMutex` from entry to return, so their calls do not overlap; the
  spawned `SendRequest` goroutines, which write `Acknowledged`, may run
  between the `ReceiveAcknowledge` calls of a `ReadFile` or `WriteFile`, and
  a schedule argument says which of them do.
* The interleaving of the client goroutines themselves is the subject of the
  control model (`Control`), which keeps the places they have reached and the
  holder of `RequestMutex`.
-/

namespace Ricart

/-! ## Data model (lines 10-38) -/

/-- The record `File` (lines 10-15); its mutex is part of the control model below. -/
structure File where
  Name : String
  IsOpen : Bool
  Content : String
deriving DecidableEq, Repr

/-- The record `Request` (lines 34-38); `File` is the address of the file. -/
structure Request where
  ClientID : Int
  File : Nat
  Timestamp : Int
deriving DecidableEq, Repr

/-- The record `DistributedFileSystem` (lines 17-27) together with the two
pieces of run-time state its methods act on: the heap holding the `File`
records the pointers refer to, and the spawned `SendRequest` goroutines
(sender, request) that have not run yet. `LogFile` holds the lines written
to the log file, oldest first. -/
structure DistributedFileSystem where
  Heap : List File
  Files : List (String × Nat)
  Requests : List Request
  Acknowledged : List Bool
  Timestamps : List Int
  LogFile : List String
  Goroutines : List (Int × Request)
deriving DecidableEq, Repr

/-- The state built by `main` (lines 185-206) once `numClients` is read. -/
def initial (numClients : Nat) : DistributedFileSystem :=
  { Heap := []
    Files := []
    Requests := []
    Acknowledged := List.replicate numClients false
    Timestamps := []
    LogFile := []
    Goroutines := [] }

/-! ## Operations -/

/-- `LogRequest` (lines 179-182): one formatted line is appended to the log file. -/
def LogRequest (fs : DistributedFileSystem) (clientID : Int) (action : String)
    (fileName : String) (timestamp : Int) : DistributedFileSystem :=
  let logEntry := "Client " ++ toString clientID ++ " " ++ action ++ " file " ++ fileName ++
    " at timestamp " ++ toString timestamp ++ "\n"
  { fs with LogFile := fs.LogFile ++ [logEntry] }

/-- `OpenFile` (lines 40-66). `disk` is the answer of `ioutil.ReadFile fileName`
(`none` when it returns an error). The result is the new state and the
returned pointer (`none` for nil). -/
def OpenFile (fs : DistributedFileSystem) (clientID : Int) (fileName : String)
    (disk : Option String) : Option (DistributedFileSystem × Option Nat) :=
  match fs.Files.lookup fileName with
  | none =>
    match disk with
    | none => some (fs, none)
    | some fileContent =>
      let file : File := { Name := fileName, IsOpen := true, Content := fileContent }
      let p := fs.Heap.length
      some ({ fs with Heap := fs.Heap ++ [file], Files := (fileName, p) :: fs.Files }, some p)
  | some p =>
    match fs.Heap[p]? with
    | none => none
    | some file =>
      some ({ fs with Heap := fs.Heap.set p { file with IsOpen := true } }, some p)

/-- `CloseFile` (lines 68-73). -/
def CloseFile (fs : DistributedFileSystem) (file : Nat) : Option DistributedFileSystem :=
  match fs.Heap[file]? with
  | none => none
  | some f => some { fs with Heap := fs.Heap.set file { f with IsOpen := false } }

/-- `SendRequest` (lines 152-162): the body run by a spawned goroutine. -/
def SendRequest (fs : DistributedFileSystem) (clientID : Int) (request : Request) :
    Option DistributedFileSystem :=
  if request.ClientID < (fs.Acknowledged.length : Int) then
    if request.ClientID < 0 then none
    else some { fs with Acknowledged := fs.Acknowledged.set request.ClientID.toNat true }
  else some fs

/-- The test made by the loop of `ReceiveAcknowledge` (lines 168-172): no
entry of `Acknowledged` is false. -/
def allAcknowledged (fs : DistributedFileSystem) : Bool :=
  fs.Acknowledged.all (fun b => b)

/-- `ReceiveAcknowledge` (lines 164-177). -/
def ReceiveAcknowledge (fs : DistributedFileSystem) : DistributedFileSystem :=
  if allAcknowledged fs then
    { fs with Acknowledged := List.replicate fs.Requests.length false }
  else fs

/-- Lines 79-90 and 113-124: the next timestamp is taken and recorded and the
request is appended to `Requests`. Returns the state and the timestamp. -/
def issue (fs : DistributedFileSystem) (clientID : Int) (file : Nat) :
    DistributedFileSystem × Int :=
  let timestamp : Int := (fs.Timestamps.length : Int) + 1
  let request : Request := { ClientID := clientID, File := file, Timestamp := timestamp }
  ({ fs with Timestamps := fs.Timestamps ++ [timestamp], Requests := fs.Requests ++ [request] },
    timestamp)

/-- The `SendRequest` calls spawned by the loop of lines 92-96 and 126-130
over the requests `rs`. -/
def spawned (clientID : Int) (rs : List Request) : List (Int × Request) :=
  (rs.filter (fun r => r.ClientID ≠ clientID)).map (fun r => (clientID, r))

/-- Lines 92-96 and 126-130: one goroutine is spawned for each request of
another client. -/
def broadcast (fs : DistributedFileSystem) (clientID : Int) : DistributedFileSystem :=
  { fs with Goroutines := fs.Goroutines ++ spawned clientID fs.Requests }

/-- Some spawned goroutines run: `picks` names them, one after the other, by
their position among the goroutines still waiting (a position past the end
names none). -/
def runGoroutines : DistributedFileSystem → List Nat → Option DistributedFileSystem
  | fs, [] => some fs
  | fs, i :: picks =>
    match fs.Goroutines[i]? with
    | none => runGoroutines fs picks
    | some g =>
      match SendRequest { fs with Goroutines := fs.Goroutines.eraseIdx i } g.1 g.2 with
      | none => none
      | some fs1 => runGoroutines fs1 picks

/-- Lines 98-102 and 132-136: `ReceiveAcknowledge` is called once for each
request of another client (the loop ranges over `rs`, the value of
`fs.Requests`, which cannot change while `RequestMutex` is held). Before the
j-th call the goroutines `sched[j]` run. -/
def collect (clientID : Int) : List Request → List (List Nat) → DistributedFileSystem →
    Option DistributedFileSystem
  | [], _, fs => some fs
  | r :: rs, sched, fs =>
    if r.ClientID ≠ clientID then
      match runGoroutines fs (sched.headD []) with
      | none => none
      | some fs1 => collect clientID rs sched.tail (ReceiveAcknowledge fs1)
    else collect clientID rs sched fs

/-- Lines 76-102 and 110-136: the part of `ReadFile` and `WriteFile` before
the file is accessed. Returns the state and the timestamp of the request. -/
def acquire (fs : DistributedFileSystem) (clientID : Int) (file : Nat)
    (sched : List (List Nat)) : Option (DistributedFileSystem × Int) :=
  let (fs1, timestamp) := issue fs clientID file
  let fs2 := broadcast fs1 clientID
  match collect clientID fs2.Requests sched fs2 with
  | none => none
  | some fs3 => some (fs3, timestamp)

/-- `ReadFile` (lines 75-107). -/
def ReadFile (fs : DistributedFileSystem) (clientID : Int) (file : Nat)
    (sched : List (List Nat)) : Option DistributedFileSystem :=
  match acquire fs clientID file sched with
  | none => none
  | some (fs3, timestamp) =>
    match fs3.Heap[file]? with
    | none => none
    | some f => some (LogRequest fs3 clientID "Read" f.Name timestamp)

/-- `WriteFile` (lines 109-150). `diskOk` tells whether `ioutil.WriteFile`
succeeded. -/
def WriteFile (fs : DistributedFileSystem) (clientID : Int) (file : Nat) (content : String)
    (sched : List (List Nat)) (diskOk : Bool) : Option DistributedFileSystem :=
  match acquire fs clientID file sched with
  | none => none
  | some (fs3, timestamp) =>
    match fs3.Heap[file]? with
    | none => none
    | some f =>
      let fs4 := { fs3 with Heap := fs3.Heap.set file { f with Content := content } }
      if diskOk then some (LogRequest fs4 clientID "Write" f.Name timestamp)
      else some fs4

/-- One operation on the file system: a call of one of its methods with the
answers of the environment it depends on, or the run of a spawned goroutine. -/
inductive Step where
  | openFile (clientID : Int) (fileName : String) (disk : Option String)
  | closeFile (file : Nat)
  | readFile (clientID : Int) (file : Nat) (sched : List (List Nat))
  | writeFile (clientID : Int) (file : Nat) (content : String) (sched : List (List Nat))
      (diskOk : Bool)
  | sendRequest (clientID : Int) (request : Request)
  | goroutine (i : Nat)
  | receiveAcknowledge
deriving DecidableEq, Repr

/-- The effect of one operation; `none` when it panics. -/
def exec (fs : DistributedFileSystem) : Step → Option DistributedFileSystem
  | .openFile clientID fileName disk => (OpenFile fs clientID fileName disk).map (fun r => r.1)
  | .closeFile file => CloseFile fs file
  | .readFile clientID file sched => ReadFile fs clientID file sched
  | .writeFile clientID file content sched diskOk =>
    WriteFile fs clientID file content sched diskOk
  | .sendRequest clientID request => SendRequest fs clientID request
  | .goroutine i => runGoroutines fs [i]
  | .receiveAcknowledge => some (ReceiveAcknowledge fs)

/-- The effect of a sequence of operations, one after the other. -/
def run : DistributedFileSystem → List Step → Option DistributedFileSystem
  | fs, [] => some fs
  | fs, st :: rest =>
    match exec fs st with
    | none => none
    | some fs1 => run fs1 rest

/-- The state after the first `k` operations of a sequence. -/
def runTo (fs : DistributedFileSystem) (steps : List Step) (k : Nat) :
    Option DistributedFileSystem :=
  run fs (steps.take k)

/-- The client on whose behalf an operation runs, for the calls that issue a
request (`ReadFile`, `WriteFile`). -/
def Step.caller : Step → Option Int
  | .readFile clientID _ _ => some clientID
  | .writeFile clientID _ _ _ _ => some clientID
  | _ => none

/-- The operation is a `ReadFile` or a `WriteFile` call. -/
def Step.isAccess (st : Step) : Bool := st.caller.isSome

/-- The operation is a `WriteFile` call on the file `file`. -/
def Step.isWriteOn (file : Nat) : Step → Bool
  | .writeFile _ f _ _ _ => decide (f = file)
  | _ => false

/-- The content argument of a `WriteFile` call. -/
def Step.content : Step → Option String
  | .writeFile _ _ content _ _ => some content
  | _ => none

/-- The file an operation dereferences, for the operations that take one. -/
def Step.file : Step → Option Nat
  | .closeFile file => some file
  | .readFile _ file _ => some file
  | .writeFile _ file _ _ _ => some file
  | _ => none

/-- Every request issued so far and every spawned goroutine carries a client
identifier that is at least `lo`. -/
def idsFrom (lo : Int) (fs : DistributedFileSystem) : Bool :=
  fs.Requests.all (fun r => decide (lo ≤ r.ClientID)) &&
    fs.Goroutines.all (fun g => decide (lo ≤ g.2.ClientID))

/-- The clients the given `SendRequest` calls are addressed to. -/
def targets (gs : List (Int × Request)) : List Int :=
  gs.map (fun g => g.2.ClientID)

/-- The state after client 2 of two clients has opened `file1.txt` (whose
stored content is `old`) and written to it, with the log left aside. -/
def afterFirstWriter : DistributedFileSystem :=
  { Heap := [{ Name := "file1.txt", IsOpen := true, Content := "by 2" }]
    Files := [("file1.txt", 0)]
    Requests := [{ ClientID := 2, File := 0, Timestamp := 1 }]
    Acknowledged := [false, false]
    Timestamps := [1]
    LogFile := []
    Goroutines := [] }

/-- The state after client 1 of two clients has opened `file1.txt`, whose
stored content is `old`. -/
def afterOpen : DistributedFileSystem :=
  { Heap := [{ Name := "file1.txt", IsOpen := true, Content := "old" }]
    Files := [("file1.txt", 0)]
    Requests := []
    Acknowledged := [false, false]
    Timestamps := []
    LogFile := []
    Goroutines := [] }

/-- The peers of client `c` among the clients `1 .. numClients` created by
`main` (lines 210-217). -/
def knownPeers (numClients : Nat) (c : Int) : List Int :=
  ((List.range numClients).map (fun (i : Nat) => (i : Int) + 1)).filter (fun i => i ≠ c)

/-- The operation is issued on behalf of the clients `1 .. numClients` of
`main`: the caller, and for a `SendRequest` call the client of the request, is
one of them. -/
def Step.issuedFor (numClients : Nat) : Step → Bool
  | .openFile c _ _ => decide (1 ≤ c ∧ c ≤ (numClients : Int))
  | .readFile c _ _ => decide (1 ≤ c ∧ c ≤ (numClients : Int))
  | .writeFile c _ _ _ _ => decide (1 ≤ c ∧ c ≤ (numClients : Int))
  | .sendRequest c r =>
    decide (1 ≤ c ∧ c ≤ (numClients : Int)) &&
      decide (1 ≤ r.ClientID ∧ r.ClientID ≤ (numClients : Int))
  | .closeFile _ => true
  | .goroutine _ => true
  | .receiveAcknowledge => true

/-- The acknowledgment vector has `numClients` entries, the first of which is
false, and no request or goroutine carries an identifier below 1. -/
def noQuorum (numClients : Nat) (fs : DistributedFileSystem) : Prop :=
  fs.Acknowledged.length = numClients ∧ fs.Acknowledged[0]? = some false ∧
    idsFrom 1 fs = true

/-! ## Control of the client goroutines

The goroutine that `main` starts for each client (lines 212-224) calls
`OpenFile`, and when the file is not nil `WriteFile`, `ReadFile` and
`CloseFile` on it. `ReadFile` and `WriteFile` lock `RequestMutex` on entry
(lines 76, 110) and unlock it when they return (the deferred calls of lines 77
and 111). The control model keeps, for each client goroutine, the place it has
reached, and the holder of `RequestMutex`; goroutines take steps in any order.
A step is blocked only in `RequestMutex.Lock()`; the waits of the source on the
other mutexes are steps that are always possible here, which adds
interleavings and removes none. -/

/-- The place a client goroutine has reached. -/
inductive Loc where
  /-- Line 218, before `OpenFile` has returned. -/
  | start
  /-- Line 110 of `WriteFile`: at `RequestMutex.Lock()`. -/
  | writeEntry (file : Nat)
  /-- Lines 113-136 of `WriteFile`, holding `RequestMutex`. -/
  | writeBefore (file : Nat)
  /-- Lines 138-140 of `WriteFile`: the update of the content of the file. -/
  | writing (file : Nat)
  /-- Lines 142-149 of `WriteFile`, before the deferred unlock. -/
  | writeAfter (file : Nat)
  /-- Line 76 of `ReadFile`: at `RequestMutex.Lock()`. -/
  | readEntry (file : Nat)
  /-- Lines 79-102 of `ReadFile`, holding `RequestMutex`. -/
  | readBefore (file : Nat)
  /-- Line 104 of `ReadFile`: the read of the content of the file. -/
  | reading (file : Nat)
  /-- Line 105 of `ReadFile`, before the deferred unlock. -/
  | readAfter (file : Nat)
  /-- Line 222, before `CloseFile` has returned. -/
  | closing (file : Nat)
  /-- The goroutine has ended. -/
  | done
deriving DecidableEq, Repr

/-- The file whose content the goroutine is updating or reading, when it
stands in a critical section. -/
def Loc.critical : Loc → Option Nat
  | .writing file => some file
  | .reading file => some file
  | _ => none

/-- The goroutine stands between a `RequestMutex.Lock()` that has returned and
the matching deferred `RequestMutex.Unlock()`. -/
def Loc.locked : Loc → Bool
  | .writeBefore _ => true
  | .writing _ => true
  | .writeAfter _ => true
  | .readBefore _ => true
  | .reading _ => true
  | .readAfter _ => true
  | _ => false

/-- The control state: the number of client goroutines started by `main`, the
goroutine holding `RequestMutex` if it is locked, and the place of each client
goroutine (goroutine `i` is the one of client `i + 1`). -/
structure Control where
  numClients : Nat
  RequestMutex : Option Nat
  loc : Nat → Loc

/-- The control state when `main` has started the client goroutines. -/
def Control.initial (numClients : Nat) : Control :=
  { numClients := numClients, RequestMutex := none, loc := fun _ => Loc.start }

/-- Goroutine `i` moves to the place `l`. -/
def Control.goto (cfg : Control) (i : Nat) (l : Loc) : Control :=
  { cfg with loc := fun j => if j = i then l else cfg.loc j }

/-- Goroutine `i` returns from `RequestMutex.Lock()` and moves to `l`: possible
only when the mutex is unlocked. -/
def Control.lock (cfg : Control) (i : Nat) (l : Loc) : Option Control :=
  match cfg.RequestMutex with
  | none => some { cfg.goto i l with RequestMutex := some i }
  | some _ => none

/-- Goroutine `i` runs the deferred `RequestMutex.Unlock()` and moves to `l`. -/
def Control.unlock (cfg : Control) (i : Nat) (l : Loc) : Control :=
  { cfg.goto i l with RequestMutex := none }

/-- The next step of client goroutine `i`; `opened` is the pointer returned by
its `OpenFile` call. `none` when the goroutine does not exist, has ended, or is
blocked in `RequestMutex.Lock()`. -/
def Control.advance (cfg : Control) (i : Nat) (opened : Option Nat) : Option Control :=
  if i < cfg.numClients then
    match cfg.loc i with
    | .start =>
      match opened with
      | none => some (cfg.goto i .done)
      | some file => some (cfg.goto i (.writeEntry file))
    | .writeEntry file => cfg.lock i (.writeBefore file)
    | .writeBefore file => some (cfg.goto i (.writing file))
    | .writing file => some (cfg.goto i (.writeAfter file))
    | .writeAfter file => some (cfg.unlock i (.readEntry file))
    | .readEntry file => cfg.lock i (.readBefore file)
    | .readBefore file => some (cfg.goto i (.reading file))
    | .reading file => some (cfg.goto i (.readAfter file))
    | .readAfter file => some (cfg.unlock i (.closing file))
    | .closing _ => some (cfg.goto i .done)
    | .done => none
  else none

/-- An interleaving: the goroutines named by `sched` take one step each, in
that order; naming a goroutine that cannot move leaves the state as it is. -/
def Control.interleave : Control → List (Nat × Option Nat) → Control
  | cfg, [] => cfg
  | cfg, (i, opened) :: sched =>
    match cfg.advance i opened with
    | none => cfg.interleave sched
    | some cfg1 => cfg1.interleave sched

/-- Whoever stands between lock and unlock is the holder of `RequestMutex`. -/
def Control.holderOk (cfg : Control) : Prop :=
  ∀ i, (cfg.loc i).locked = true → cfg.RequestMutex = some i

/-- The state `fs1` differs from `fs` at most in `Acknowledged` and in the
spawned goroutines. -/
def frame (fs fs1 : DistributedFileSystem) : Prop :=
  fs1.Heap = fs.Heap ∧ fs1.Files = fs.Files ∧ fs1.Requests = fs.Requests ∧
    fs1.Timestamps = fs.Timestamps ∧ fs1.LogFile = fs.LogFile

/-- Every pointer stored in `Files` is allocated (no nil entry in the map). -/
def filesValid (fs : DistributedFileSystem) : Bool :=
  fs.Files.all (fun e => decide (e.2 < fs.Heap.length))

/-! ## Theorems -/

theorem lookup_mem {α β : Type} [BEq α] (a : α) (b : β) (l : List (α × β))
    (h : l.lookup a = some b) : ∃ a1, (a1, b) ∈ l := by
  induction l with
  | nil => simp at h
  | cons e l ih =>
    obtain ⟨k, v⟩ := e
    simp only [List.lookup] at h
    split at h
    · exact ⟨k, by simp_all⟩
    · obtain ⟨a1, h1⟩ := ih h
      exact ⟨a1, List.mem_cons_of_mem _ h1⟩

theorem filesValid_lookup (fs : DistributedFileSystem) (hv : filesValid fs = true)
    (name : String) (p : Nat) (h : fs.Files.lookup name = some p) : p < fs.Heap.length := by
  obtain ⟨a1, h1⟩ := lookup_mem name p fs.Files h
  have := (List.all_eq_true.mp hv) _ h1
  simpa using this

/-! ### What the acknowledgment machinery leaves alone -/

theorem frame_refl (fs : DistributedFileSystem) : frame fs fs :=
  ⟨rfl, rfl, rfl, rfl, rfl⟩

theorem frame_trans {a b c : DistributedFileSystem} (h1 : frame a b) (h2 : frame b c) :
    frame a c := by
  obtain ⟨x1, x2, x3, x4, x5⟩ := h1
  obtain ⟨y1, y2, y3, y4, y5⟩ := h2
  exact ⟨y1.trans x1, y2.trans x2, y3.trans x3, y4.trans x4, y5.trans x5⟩

theorem SendRequest_frame {fs fs1 : DistributedFileSystem} {c : Int} {r : Request}
    (h : SendRequest fs c r = some fs1) :
    frame fs fs1 ∧ fs1.Goroutines = fs.Goroutines ∧
      fs1.Acknowledged.length = fs.Acknowledged.length := by
  unfold SendRequest at h
  split at h
  · split at h
    · simp at h
    · simp only [Option.some.injEq] at h
      subst h
      exact ⟨⟨rfl, rfl, rfl, rfl, rfl⟩, rfl, by simp⟩
  · simp only [Option.some.injEq] at h
    subst h
    exact ⟨frame_refl _, rfl, rfl⟩

theorem SendRequest_total (fs : DistributedFileSystem) (c : Int) (r : Request)
    (h : 0 ≤ r.ClientID) : ∃ fs1, SendRequest fs c r = some fs1 := by
  unfold SendRequest
  split
  · rw [if_neg (not_lt.mpr h)]
    exact ⟨_, rfl⟩
  · exact ⟨_, rfl⟩

theorem ReceiveAcknowledge_frame (fs : DistributedFileSystem) :
    frame fs (ReceiveAcknowledge fs) ∧ (ReceiveAcknowledge fs).Goroutines = fs.Goroutines := by
  unfold ReceiveAcknowledge
  split
  · exact ⟨⟨rfl, rfl, rfl, rfl, rfl⟩, rfl⟩
  · exact ⟨frame_refl _, rfl⟩

/-- A property kept by the run of any one waiting goroutine is kept by
`runGoroutines`. -/
theorem runGoroutines_inv (P : DistributedFileSystem → Prop)
    (hgo : ∀ fs i g fs1, P fs → fs.Goroutines[i]? = some g →
      SendRequest { fs with Goroutines := fs.Goroutines.eraseIdx i } g.1 g.2 = some fs1 → P fs1) :
    ∀ (picks : List Nat) (fs fs1 : DistributedFileSystem),
      P fs → runGoroutines fs picks = some fs1 → P fs1 := by
  intro picks
  induction picks with
  | nil =>
    intro fs fs1 hP h
    simp only [runGoroutines, Option.some.injEq] at h
    exact h ▸ hP
  | cons i picks ih =>
    intro fs fs1 hP h
    simp only [runGoroutines] at h
    split at h
    · exact ih fs fs1 hP h
    · rename_i g hg
      split at h
      · simp at h
      · rename_i fs2 hs
        exact ih fs2 fs1 (hgo fs i g fs2 hP hg hs) h

/-- A property kept by the run of any one waiting goroutine and by
`ReceiveAcknowledge` is kept by the acknowledgment loop. -/
theorem collect_inv (P : DistributedFileSystem → Prop)
    (hgo : ∀ fs i g fs1, P fs → fs.Goroutines[i]? = some g →
      SendRequest { fs with Goroutines := fs.Goroutines.eraseIdx i } g.1 g.2 = some fs1 → P fs1)
    (hrecv : ∀ fs, P fs → P (ReceiveAcknowledge fs)) (c : Int) :
    ∀ (rs : List Request) (sched : List (List Nat)) (fs fs1 : DistributedFileSystem),
      P fs → collect c rs sched fs = some fs1 → P fs1 := by
  intro rs
  induction rs with
  | nil =>
    intro sched fs fs1 hP h
    simp only [collect, Option.some.injEq] at h
    exact h ▸ hP
  | cons r rs ih =>
    intro sched fs fs1 hP h
    simp only [collect] at h
    split at h
    · split at h
      · simp at h
      · rename_i fs2 hs
        exact ih _ _ fs1 (hrecv _ (runGoroutines_inv P hgo _ fs fs2 hP hs)) h
    · exact ih _ _ fs1 hP h

/-- The goroutines still waiting all carry a client identifier at least `lo`. -/
theorem goroutine_ids_step (lo : Int) (fs : DistributedFileSystem) (i : Nat)
    (g : Int × Request) (fs1 : DistributedFileSystem)
    (hP : ∀ x ∈ fs.Goroutines, lo ≤ x.2.ClientID)
    (hs : SendRequest { fs with Goroutines := fs.Goroutines.eraseIdx i } g.1 g.2 = some fs1) :
    ∀ x ∈ fs1.Goroutines, lo ≤ x.2.ClientID := by
  intro x hx
  rw [(SendRequest_frame hs).2.1] at hx
  exact hP x ((List.eraseIdx_sublist _ _).subset hx)

theorem runGoroutines_total :
    ∀ (picks : List Nat) (fs : DistributedFileSystem),
      (∀ x ∈ fs.Goroutines, 0 ≤ x.2.ClientID) → ∃ fs1, runGoroutines fs picks = some fs1 := by
  intro picks
  induction picks with
  | nil => intro fs _; exact ⟨fs, rfl⟩
  | cons i picks ih =>
    intro fs hP
    simp only [runGoroutines]
    split
    · exact ih fs hP
    · rename_i g hg
      have hg0 : 0 ≤ g.2.ClientID := hP g (List.getElem?_mem hg)
      obtain ⟨fs2, hs⟩ :=
        SendRequest_total { fs with Goroutines := fs.Goroutines.eraseIdx i } g.1 g.2 hg0
      rw [hs]
      exact ih fs2 (goroutine_ids_step 0 fs i g fs2 hP hs)

theorem collect_total (c : Int) :
    ∀ (rs : List Request) (sched : List (List Nat)) (fs : DistributedFileSystem),
      (∀ x ∈ fs.Goroutines, 0 ≤ x.2.ClientID) → ∃ fs1, collect c rs sched fs = some fs1 := by
  intro rs
  induction rs with
  | nil => intro _ fs _; exact ⟨fs, rfl⟩
  | cons r rs ih =>
    intro sched fs hP
    simp only [collect]
    split
    · obtain ⟨fs2, hs⟩ := runGoroutines_total (sched.headD []) fs hP
      rw [hs]
      apply ih
      rw [(ReceiveAcknowledge_frame fs2).2]
      exact runGoroutines_inv (fun s => ∀ x ∈ s.Goroutines, 0 ≤ x.2.ClientID)
        (fun s i g s1 h _ hs => goroutine_ids_step 0 s i g s1 h hs) _ fs fs2 hP hs
    · exact ih sched fs hP

theorem idsFrom_iff (lo : Int) (fs : DistributedFileSystem) :
    idsFrom lo fs = true ↔
      (∀ r ∈ fs.Requests, lo ≤ r.ClientID) ∧ (∀ x ∈ fs.Goroutines, lo ≤ x.2.ClientID) := by
  simp [idsFrom, List.all_eq_true]

theorem mem_spawned {c : Int} {rs : List Request} {x : Int × Request}
    (h : x ∈ spawned c rs) : x.1 = c ∧ x.2 ∈ rs ∧ x.2.ClientID ≠ c := by
  simp only [spawned, List.mem_map, List.mem_filter] at h
  obtain ⟨r, ⟨hr, hne⟩, rfl⟩ := h
  exact ⟨rfl, hr, by simpa using hne⟩

/-- The goroutines spawned by a call of `clientID` never carry the request the
call has just appended. -/
theorem spawned_issue (c : Int) (f : Nat) (fs : DistributedFileSystem) :
    spawned c (issue fs c f).1.Requests = spawned c fs.Requests := by
  simp [spawned, issue, List.filter_append]

/-- What the part of `ReadFile` and `WriteFile` before the access does to the
state, whatever the goroutines that run meanwhile. -/
theorem acquire_some {fs fs3 : DistributedFileSystem} {c ts : Int} {f : Nat}
    {sched : List (List Nat)} (h : acquire fs c f sched = some (fs3, ts)) :
    ts = (fs.Timestamps.length : Int) + 1 ∧
      fs3.Requests = fs.Requests ++ [{ ClientID := c, File := f, Timestamp := ts }] ∧
      fs3.Timestamps = fs.Timestamps ++ [ts] ∧
      fs3.Heap = fs.Heap ∧ fs3.Files = fs.Files ∧ fs3.LogFile = fs.LogFile := by
  simp only [acquire] at h
  split at h
  · simp at h
  · rename_i fs4 hc
    simp only [Option.some.injEq, Prod.mk.injEq] at h
    obtain ⟨rfl, rfl⟩ := h
    have hf := collect_inv (frame (broadcast (issue fs c f).1 c))
      (fun s i g s1 hP _ hs => frame_trans hP (SendRequest_frame hs).1)
      (fun s hP => frame_trans hP (ReceiveAcknowledge_frame s).1) c _ _ _ _ (frame_refl _) hc
    obtain ⟨h1, h2, h3, h4, h5⟩ := hf
    exact ⟨rfl, by rw [h3]; rfl, by rw [h4]; rfl, by rw [h1]; rfl, by rw [h2]; rfl,
      by rw [h5]; rfl⟩

/-- The goroutines waiting after the part before the access were waiting
before the call or were spawned by it. -/
theorem acquire_goroutines {fs fs3 : DistributedFileSystem} {c ts : Int} {f : Nat}
    {sched : List (List Nat)} (h : acquire fs c f sched = some (fs3, ts)) :
    ∀ x ∈ fs3.Goroutines, x ∈ fs.Goroutines ∨ x ∈ spawned c fs.Requests := by
  simp only [acquire] at h
  split at h
  · simp at h
  · rename_i fs4 hc
    simp only [Option.some.injEq, Prod.mk.injEq] at h
    obtain ⟨rfl, -⟩ := h
    have hf := collect_inv
      (fun s => ∀ x ∈ s.Goroutines, x ∈ fs.Goroutines ∨ x ∈ spawned c fs.Requests)
      (fun s i g s1 hP _ hs x hx => by
        rw [(SendRequest_frame hs).2.1] at hx
        exact hP x ((List.eraseIdx_sublist _ _).subset hx))
      (fun s hP x hx => by
        rw [(ReceiveAcknowledge_frame s).2] at hx
        exact hP x hx) c _ _ _ _ ?_ hc
    · exact hf
    · intro x hx
      simp only [broadcast, List.mem_append] at hx
      rw [spawned_issue] at hx
      exact hx

theorem acquire_total (fs : DistributedFileSystem) (c : Int) (f : Nat)
    (sched : List (List Nat)) (hids : idsFrom 0 fs = true) :
    ∃ fs3, acquire fs c f sched = some (fs3, (fs.Timestamps.length : Int) + 1) := by
  obtain ⟨hr, hg⟩ := (idsFrom_iff 0 fs).mp hids
  have hP : ∀ x ∈ (broadcast (issue fs c f).1 c).Goroutines, 0 ≤ x.2.ClientID := by
    intro x hx
    simp only [broadcast, List.mem_append] at hx
    rw [spawned_issue] at hx
    rcases hx with hx | hx
    · exact hg x hx
    · exact hr _ (mem_spawned hx).2.1
  obtain ⟨fs3, h3⟩ := collect_total c (broadcast (issue fs c f).1 c).Requests sched _ hP
  exact ⟨fs3, by simp only [acquire]; rw [h3]; rfl⟩

/-- The client identifiers stay at least `lo` through the part before the
access when the caller's identifier is at least `lo`. -/
theorem acquire_ids {lo : Int} {fs fs3 : DistributedFileSystem} {c ts : Int} {f : Nat}
    {sched : List (List Nat)} (hids : idsFrom lo fs = true) (hc : lo ≤ c)
    (h : acquire fs c f sched = some (fs3, ts)) : idsFrom lo fs3 = true := by
  obtain ⟨hr, hg⟩ := (idsFrom_iff lo fs).mp hids
  rw [idsFrom_iff]
  constructor
  · intro r hmem
    rw [(acquire_some h).2.1, List.mem_append] at hmem
    rcases hmem with hmem | hmem
    · exact hr r hmem
    · simp only [List.mem_singleton] at hmem
      subst hmem
      exact hc
  · intro x hx
    rcases acquire_goroutines h x hx with hx | hx
    · exact hg x hx
    · exact hr _ (mem_spawned hx).2.1

/-- What a returning `WriteFile` call has done. -/
theorem WriteFile_some {fs fs1 : DistributedFileSystem} {c : Int} {f : Nat} {content : String}
    {sched : List (List Nat)} {ok : Bool} (h : WriteFile fs c f content sched ok = some fs1) :
    ∃ fs3 f0, acquire fs c f sched = some (fs3, (fs.Timestamps.length : Int) + 1) ∧
      fs.Heap[f]? = some f0 ∧
      fs1.Heap = fs.Heap.set f { f0 with Content := content } ∧
      fs1.Files = fs.Files ∧
      fs1.Requests = fs.Requests ++
        [{ ClientID := c, File := f, Timestamp := (fs.Timestamps.length : Int) + 1 }] ∧
      fs1.Timestamps = fs.Timestamps ++ [(fs.Timestamps.length : Int) + 1] ∧
      fs1.Acknowledged = fs3.Acknowledged ∧ fs1.Goroutines = fs3.Goroutines := by
  simp only [WriteFile] at h
  split at h
  · simp at h
  · rename_i fs3 ts ha
    obtain ⟨hts, hr, ht, hh, hfi, -⟩ := acquire_some ha
    subst hts
    split at h
    · simp at h
    · rename_i f0 hf0
      refine ⟨fs3, f0, ha, hh ▸ hf0, ?_⟩
      split at h <;>
      · simp only [Option.some.injEq] at h
        subst h
        simp [LogRequest, hh, hfi, hr, ht]

/-- What a returning `ReadFile` call has done. -/
theorem ReadFile_some {fs fs1 : DistributedFileSystem} {c : Int} {f : Nat}
    {sched : List (List Nat)} (h : ReadFile fs c f sched = some fs1) :
    ∃ fs3 f0, acquire fs c f sched = some (fs3, (fs.Timestamps.length : Int) + 1) ∧
      fs.Heap[f]? = some f0 ∧
      fs1.Heap = fs.Heap ∧
      fs1.Files = fs.Files ∧
      fs1.Requests = fs.Requests ++
        [{ ClientID := c, File := f, Timestamp := (fs.Timestamps.length : Int) + 1 }] ∧
      fs1.Timestamps = fs.Timestamps ++ [(fs.Timestamps.length : Int) + 1] ∧
      fs1.Acknowledged = fs3.Acknowledged ∧ fs1.Goroutines = fs3.Goroutines := by
  simp only [ReadFile] at h
  split at h
  · simp at h
  · rename_i fs3 ts ha
    obtain ⟨hts, hr, ht, hh, hfi, -⟩ := acquire_some ha
    subst hts
    split at h
    · simp at h
    · rename_i f0 hf0
      refine ⟨fs3, f0, ha, hh ▸ hf0, ?_⟩
      simp only [Option.some.injEq] at h
      subst h
      simp [LogRequest, hh, hfi, hr, ht]

/-- `WriteFile` returns when the file is allocated and no client identifier is
negative. -/
theorem WriteFile_total (fs : DistributedFileSystem) (c : Int) (f : Nat) (content : String)
    (sched : List (List Nat)) (ok : Bool) (hids : idsFrom 0 fs = true)
    (hf : f < fs.Heap.length) : ∃ fs1, WriteFile fs c f content sched ok = some fs1 := by
  obtain ⟨fs3, h3⟩ := acquire_total fs c f sched hids
  have hh := (acquire_some h3).2.2.2.1
  have hget : fs3.Heap[f]? = some fs.Heap[f] := by
    rw [hh]; exact List.getElem?_eq_getElem hf
  simp only [WriteFile, h3, hget]
  split <;> exact ⟨_, rfl⟩

/-- `ReadFile` returns when the file is allocated and no client identifier is
negative. -/
theorem ReadFile_total (fs : DistributedFileSystem) (c : Int) (f : Nat)
    (sched : List (List Nat)) (hids : idsFrom 0 fs = true)
    (hf : f < fs.Heap.length) : ∃ fs1, ReadFile fs c f sched = some fs1 := by
  obtain ⟨fs3, h3⟩ := acquire_total fs c f sched hids
  have hh := (acquire_some h3).2.2.2.1
  have hget : fs3.Heap[f]? = some fs.Heap[f] := by
    rw [hh]; exact List.getElem?_eq_getElem hf
  simp only [ReadFile, h3, hget]
  exact ⟨_, rfl⟩

theorem OpenFile_some {fs fs1 : DistributedFileSystem} {c : Int} {name : String}
    {disk : Option String} {res : Option Nat} (h : OpenFile fs c name disk = some (fs1, res)) :
    fs1.Requests = fs.Requests ∧ fs1.Timestamps = fs.Timestamps ∧
      fs1.Acknowledged = fs.Acknowledged ∧ fs1.Goroutines = fs.Goroutines ∧
      fs.Heap.length ≤ fs1.Heap.length := by
  unfold OpenFile at h
  split at h
  · split at h
    · simp only [Option.some.injEq, Prod.mk.injEq] at h
      obtain ⟨rfl, -⟩ := h
      exact ⟨rfl, rfl, rfl, rfl, le_refl _⟩
    · simp only [Option.some.injEq, Prod.mk.injEq] at h
      obtain ⟨rfl, -⟩ := h
      exact ⟨rfl, rfl, rfl, rfl, by simp⟩
  · split at h
    · simp at h
    · simp only [Option.some.injEq, Prod.mk.injEq] at h
      obtain ⟨rfl, -⟩ := h
      exact ⟨rfl, rfl, rfl, rfl, by simp⟩

theorem CloseFile_some {fs fs1 : DistributedFileSystem} {f : Nat}
    (h : CloseFile fs f = some fs1) :
    fs1.Requests = fs.Requests ∧ fs1.Timestamps = fs.Timestamps ∧
      fs1.Acknowledged = fs.Acknowledged ∧ fs1.Goroutines = fs.Goroutines ∧
      fs1.Heap.length = fs.Heap.length := by
  unfold CloseFile at h
  split at h
  · simp at h
  · simp only [Option.some.injEq] at h
    subst h
    exact ⟨rfl, rfl, rfl, rfl, by simp⟩

theorem runGoroutines_frame {fs fs1 : DistributedFileSystem} {picks : List Nat}
    (h : runGoroutines fs picks = some fs1) : frame fs fs1 :=
  runGoroutines_inv (frame fs)
    (fun _ _ _ _ hP _ hs => frame_trans hP (SendRequest_frame hs).1) picks fs fs1
    (frame_refl fs) h

/-- The requests and timestamps after one operation: an access appends one
entry to each, every other operation leaves both as they were. -/
theorem exec_requests {fs fs1 : DistributedFileSystem} {st : Step}
    (h : exec fs st = some fs1) :
    (st.caller = none → fs1.Requests = fs.Requests ∧ fs1.Timestamps = fs.Timestamps) ∧
    (∀ c, st.caller = some c → ∃ f,
      fs1.Requests = fs.Requests ++
        [{ ClientID := c, File := f, Timestamp := (fs.Timestamps.length : Int) + 1 }] ∧
      fs1.Timestamps = fs.Timestamps ++ [(fs.Timestamps.length : Int) + 1]) := by
  cases st with
  | openFile c name disk =>
    simp only [exec, Option.map_eq_some'] at h
    obtain ⟨⟨fs2, res⟩, h, rfl⟩ := h
    exact ⟨fun _ => ⟨(OpenFile_some h).1, (OpenFile_some h).2.1⟩, by simp [Step.caller]⟩
  | closeFile f =>
    exact ⟨fun _ => ⟨(CloseFile_some h).1, (CloseFile_some h).2.1⟩, by simp [Step.caller]⟩
  | readFile c f sched =>
    obtain ⟨_, _, _, _, _, _, hr, ht, _⟩ := ReadFile_some h
    refine ⟨by simp [Step.caller], ?_⟩
    intro c1 hc
    simp only [Step.caller, Option.some.injEq] at hc
    subst hc
    exact ⟨f, hr, ht⟩
  | writeFile c f content sched ok =>
    obtain ⟨_, _, _, _, _, _, hr, ht, _⟩ := WriteFile_some h
    refine ⟨by simp [Step.caller], ?_⟩
    intro c1 hc
    simp only [Step.caller, Option.some.injEq] at hc
    subst hc
    exact ⟨f, hr, ht⟩
  | sendRequest c r =>
    obtain ⟨⟨_, _, hr, ht, _⟩, _⟩ := SendRequest_frame (c := c) h
    exact ⟨fun _ => ⟨hr, ht⟩, by simp [Step.caller]⟩
  | goroutine i =>
    obtain ⟨_, _, hr, ht, _⟩ := runGoroutines_frame h
    exact ⟨fun _ => ⟨hr, ht⟩, by simp [Step.caller]⟩
  | receiveAcknowledge =>
    simp only [exec, Option.some.injEq] at h
    subst h
    obtain ⟨⟨_, _, hr, ht, _⟩, _⟩ := ReceiveAcknowledge_frame fs
    exact ⟨fun _ => ⟨hr, ht⟩, by simp [Step.caller]⟩

/-- With an empty schedule no goroutine runs during the acknowledgment loop. -/
theorem collect_idle (c : Int) :
    ∀ (rs : List Request) (fs : DistributedFileSystem),
      ∃ fs1, collect c rs [] fs = some fs1 ∧ fs1.Goroutines = fs.Goroutines := by
  intro rs
  induction rs with
  | nil => intro fs; exact ⟨fs, rfl, rfl⟩
  | cons r rs ih =>
    intro fs
    simp only [collect]
    split
    · simp only [List.headD_nil, runGoroutines, List.tail_nil]
      obtain ⟨fs1, h1, h2⟩ := ih (ReceiveAcknowledge fs)
      exact ⟨fs1, h1, h2.trans (ReceiveAcknowledge_frame fs).2⟩
    · exact ih fs

theorem acquire_idle (fs : DistributedFileSystem) (c : Int) (f : Nat) :
    ∃ fs3, acquire fs c f [] = some (fs3, (fs.Timestamps.length : Int) + 1) ∧
      fs3.Goroutines = fs.Goroutines ++ spawned c fs.Requests := by
  obtain ⟨fs3, h3, hg⟩ := collect_idle c (broadcast (issue fs c f).1 c).Requests
    (broadcast (issue fs c f).1 c)
  refine ⟨fs3, by simp only [acquire]; rw [h3]; rfl, ?_⟩
  rw [hg]
  simp only [broadcast]
  rw [spawned_issue]
  rfl

theorem idsFrom_congr (lo : Int) {a b : DistributedFileSystem}
    (hr : b.Requests = a.Requests) (hg : b.Goroutines = a.Goroutines) :
    idsFrom lo b = idsFrom lo a := by
  simp [idsFrom, hr, hg]

/-- An access made for a client whose identifier is at least `lo` keeps the
identifiers at least `lo` and the heap at its size. -/
theorem exec_access_inv {lo : Int} {fs fs1 : DistributedFileSystem} {st : Step}
    (hacc : st.isAccess = true) (hids : idsFrom lo fs = true)
    (hc : ∀ c, st.caller = some c → lo ≤ c) (h : exec fs st = some fs1) :
    idsFrom lo fs1 = true ∧ fs1.Heap.length = fs.Heap.length := by
  cases st with
  | readFile c f sched =>
    obtain ⟨fs3, _, ha, _, hh, _, hr, _, _, hg⟩ := ReadFile_some h
    have h3 := acquire_ids hids (hc c rfl) ha
    rw [← idsFrom_congr lo (hr.trans (acquire_some ha).2.1.symm) hg] at h3
    exact ⟨h3, by rw [hh]⟩
  | writeFile c f content sched ok =>
    obtain ⟨fs3, _, ha, _, hh, _, hr, _, _, hg⟩ := WriteFile_some h
    have h3 := acquire_ids hids (hc c rfl) ha
    rw [← idsFrom_congr lo (hr.trans (acquire_some ha).2.1.symm) hg] at h3
    exact ⟨h3, by rw [hh]; simp⟩
  | openFile _ _ _ => simp [Step.isAccess, Step.caller] at hacc
  | closeFile _ => simp [Step.isAccess, Step.caller] at hacc
  | sendRequest _ _ => simp [Step.isAccess, Step.caller] at hacc
  | goroutine _ => simp [Step.isAccess, Step.caller] at hacc
  | receiveAcknowledge => simp [Step.isAccess, Step.caller] at hacc

theorem exec_access_total {fs : DistributedFileSystem} {st : Step}
    (hacc : st.isAccess = true) (hids : idsFrom 0 fs = true)
    (hf : ∀ f, st.file = some f → f < fs.Heap.length) : ∃ fs1, exec fs st = some fs1 := by
  cases st with
  | readFile c f sched => exact ReadFile_total fs c f sched hids (hf f rfl)
  | writeFile c f content sched ok =>
    exact WriteFile_total fs c f content sched ok hids (hf f rfl)
  | openFile _ _ _ => simp [Step.isAccess, Step.caller] at hacc
  | closeFile _ => simp [Step.isAccess, Step.caller] at hacc
  | sendRequest _ _ => simp [Step.isAccess, Step.caller] at hacc
  | goroutine _ => simp [Step.isAccess, Step.caller] at hacc
  | receiveAcknowledge => simp [Step.isAccess, Step.caller] at hacc

/-- A sequence of accesses returns when the files are allocated and no client
identifier is negative. -/
theorem run_access_total :
    ∀ (steps : List Step) (fs : DistributedFileSystem),
      (∀ st ∈ steps, st.isAccess = true) → idsFrom 0 fs = true →
      (∀ st ∈ steps, ∀ c, st.caller = some c → 0 ≤ c) →
      (∀ st ∈ steps, ∀ f, st.file = some f → f < fs.Heap.length) →
      ∃ fs1, run fs steps = some fs1 := by
  intro steps
  induction steps with
  | nil => intro fs _ _ _ _; exact ⟨fs, rfl⟩
  | cons st rest ih =>
    intro fs hacc hids hc hf
    obtain ⟨fs2, h2⟩ := exec_access_total (hacc st (List.mem_cons_self _ _)) hids
      (hf st (List.mem_cons_self _ _))
    obtain ⟨hids2, hlen⟩ := exec_access_inv (hacc st (List.mem_cons_self _ _)) hids
      (hc st (List.mem_cons_self _ _)) h2
    simp only [run, h2]
    exact ih fs2 (fun s hs => hacc s (List.mem_cons_of_mem _ hs)) hids2
      (fun s hs => hc s (List.mem_cons_of_mem _ hs))
      (fun s hs f hsf => hlen ▸ hf s (List.mem_cons_of_mem _ hs) f hsf)

theorem run_append :
    ∀ (l1 l2 : List Step) (fs : DistributedFileSystem),
      run fs (l1 ++ l2) = (run fs l1).bind (fun fs1 => run fs1 l2) := by
  intro l1
  induction l1 with
  | nil => intro l2 fs; rfl
  | cons st rest ih =>
    intro l2 fs
    simp only [List.cons_append, run]
    split
    · rfl
    · exact ih l2 _

/-- The timestamps and requests after a sequence of accesses. -/
theorem run_access :
    ∀ (steps : List Step) (fs fs1 : DistributedFileSystem),
      (∀ st ∈ steps, st.isAccess = true) → run fs steps = some fs1 →
      fs1.Timestamps = fs.Timestamps ++
        (List.range' (fs.Timestamps.length + 1) steps.length).map (fun (k : Nat) => (k : Int)) ∧
      fs1.Requests.map (fun r => r.Timestamp) = fs.Requests.map (fun r => r.Timestamp) ++
        (List.range' (fs.Timestamps.length + 1) steps.length).map (fun (k : Nat) => (k : Int)) ∧
      fs1.Requests.map (fun r => r.ClientID) = fs.Requests.map (fun r => r.ClientID) ++
        steps.filterMap Step.caller := by
  intro steps
  induction steps with
  | nil =>
    intro fs fs1 _ h
    simp only [run, Option.some.injEq] at h
    subst h
    simp
  | cons st rest ih =>
    intro fs fs1 hacc h
    simp only [run] at h
    split at h
    · simp at h
    · rename_i fs2 h2
      have hst := hacc st (List.mem_cons_self _ _)
      obtain ⟨c, hc⟩ := Option.isSome_iff_exists.mp hst
      obtain ⟨f, hr, ht⟩ := (exec_requests h2).2 c hc
      obtain ⟨i1, i2, i3⟩ := ih fs2 fs1 (fun s hs => hacc s (List.mem_cons_of_mem _ hs)) h
      rw [i1, i2, i3, hr, ht]
      simp [List.range', hc, List.filterMap_cons]

/-- The state after one more operation than `k`. -/
theorem runTo_succ {fs fsk1 : DistributedFileSystem} {steps : List Step} {k : Nat} {st : Step}
    (hst : steps[k]? = some st) (h : runTo fs steps (k + 1) = some fsk1) :
    ∃ fsk, runTo fs steps k = some fsk ∧ exec fsk st = some fsk1 := by
  simp only [runTo, List.take_succ, hst, Option.toList, run_append] at h
  cases hk : run fs (List.take k steps) with
  | none => simp [hk] at h
  | some fsk =>
    refine ⟨fsk, hk, ?_⟩
    simp only [hk, Option.some_bind, run] at h
    split at h
    · simp at h
    · rename_i fs2 h2
      simp only [Option.some.injEq] at h
      rw [h2, h]

theorem isWriteOn_exec {fs fs1 : DistributedFileSystem} {st : Step} {file : Nat}
    {content : String} {g : File} (hw : st.isWriteOn file = true)
    (hc : st.content = some content) (hg : fs.Heap[file]? = some g)
    (h : exec fs st = some fs1) : fs1.Heap = fs.Heap.set file { g with Content := content } := by
  cases st with
  | writeFile c f content1 sched ok =>
    simp only [Step.isWriteOn, decide_eq_true_eq] at hw
    simp only [Step.content, Option.some.injEq] at hc
    subst hw hc
    obtain ⟨_, g0, _, hg0, hh, _⟩ := WriteFile_some h
    rw [hg, Option.some.injEq] at hg0
    subst hg0
    exact hh
  | openFile _ _ _ => simp [Step.isWriteOn] at hw
  | closeFile _ => simp [Step.isWriteOn] at hw
  | readFile _ _ _ => simp [Step.isWriteOn] at hw
  | sendRequest _ _ => simp [Step.isWriteOn] at hw
  | goroutine _ => simp [Step.isWriteOn] at hw
  | receiveAcknowledge => simp [Step.isWriteOn] at hw

theorem isWriteOn_content {st : Step} {file : Nat} (hw : st.isWriteOn file = true) :
    ∃ content, st.content = some content ∧ st.isAccess = true ∧ st.file = some file := by
  cases st with
  | writeFile c f content1 sched ok =>
    simp only [Step.isWriteOn, decide_eq_true_eq] at hw
    subst hw
    exact ⟨content1, rfl, rfl, rfl⟩
  | openFile _ _ _ => simp [Step.isWriteOn] at hw
  | closeFile _ => simp [Step.isWriteOn] at hw
  | readFile _ _ _ => simp [Step.isWriteOn] at hw
  | sendRequest _ _ => simp [Step.isWriteOn] at hw
  | goroutine _ => simp [Step.isWriteOn] at hw
  | receiveAcknowledge => simp [Step.isWriteOn] at hw

/-- A sequence of `WriteFile` calls on one file changes the heap at most in
that file's `Content`. -/
theorem run_writes (file : Nat) :
    ∀ (steps : List Step) (fs fs1 : DistributedFileSystem) (f0 : File),
      (∀ st ∈ steps, st.isWriteOn file = true) → fs.Heap[file]? = some f0 →
      run fs steps = some fs1 →
      ∃ content, fs1.Heap = fs.Heap.set file { f0 with Content := content } := by
  intro steps
  induction steps with
  | nil =>
    intro fs fs1 f0 _ hf h
    simp only [run, Option.some.injEq] at h
    subst h
    refine ⟨f0.Content, ?_⟩
    obtain ⟨hlt, hget⟩ := List.getElem?_eq_some.mp hf
    apply List.ext_getElem? 
    intro i
    by_cases hi : file = i
    · subst hi
      simp [hf, hlt, ← hget]
    · simp [List.getElem?_set, hi]
  | cons st rest ih =>
    intro fs fs1 f0 hw hf h
    simp only [run] at h
    split at h
    · simp at h
    · rename_i fs2 h2
      obtain ⟨c1, hc1, -⟩ := isWriteOn_content (hw st (List.mem_cons_self _ _))
      have hh := isWriteOn_exec (hw st (List.mem_cons_self _ _)) hc1 hf h2
      have hlt : file < fs.Heap.length := (List.getElem?_eq_some.mp hf).1
      have hf2 : fs2.Heap[file]? = some { f0 with Content := c1 } := by
        rw [hh]; simp [hlt]
      obtain ⟨content, hc⟩ := ih fs2 fs1 _ (fun s hs => hw s (List.mem_cons_of_mem _ hs)) hf2 h
      exact ⟨content, by rw [hc, hh, List.set_set]⟩

/-! ### The first entry of `Acknowledged` -/

theorem SendRequest_first {fs fs1 : DistributedFileSystem} {c : Int} {r : Request}
    (hr : 1 ≤ r.ClientID) (h : SendRequest fs c r = some fs1) :
    fs1.Acknowledged[0]? = fs.Acknowledged[0]? := by
  unfold SendRequest at h
  split at h
  · split at h
    · simp at h
    · simp only [Option.some.injEq] at h
      subst h
      have : r.ClientID.toNat ≠ 0 := by omega
      simp [List.getElem?_set, this]
  · simp only [Option.some.injEq] at h
    subst h
    rfl

theorem ReceiveAcknowledge_first {fs : DistributedFileSystem}
    (h : fs.Acknowledged[0]? = some false) :
    allAcknowledged fs = false ∧ ReceiveAcknowledge fs = fs := by
  have hall : allAcknowledged fs = false := by
    rw [← Bool.not_eq_true]
    intro hall
    have := (List.all_eq_true.mp hall) false (List.getElem?_mem h)
    simp at this
  exact ⟨hall, by simp [ReceiveAcknowledge, hall]⟩

/-- The part of `noQuorum` that concerns `Acknowledged` and the goroutines is
kept by the run of a waiting goroutine. -/
theorem noQuorum_goroutine (n : Nat) (fs : DistributedFileSystem) (i : Nat)
    (g : Int × Request) (fs1 : DistributedFileSystem)
    (hP : fs.Acknowledged.length = n ∧ fs.Acknowledged[0]? = some false ∧
      ∀ x ∈ fs.Goroutines, 1 ≤ x.2.ClientID)
    (hg : fs.Goroutines[i]? = some g)
    (hs : SendRequest { fs with Goroutines := fs.Goroutines.eraseIdx i } g.1 g.2 = some fs1) :
    fs1.Acknowledged.length = n ∧ fs1.Acknowledged[0]? = some false ∧
      ∀ x ∈ fs1.Goroutines, 1 ≤ x.2.ClientID := by
  obtain ⟨h1, h2, h3⟩ := hP
  refine ⟨?_, ?_, goroutine_ids_step 1 fs i g fs1 h3 hs⟩
  · rw [(SendRequest_frame hs).2.2]; exact h1
  · rw [SendRequest_first (h3 g (List.getElem?_mem hg)) hs]; exact h2

theorem noQuorum_receive (n : Nat) (fs : DistributedFileSystem)
    (hP : fs.Acknowledged.length = n ∧ fs.Acknowledged[0]? = some false ∧
      ∀ x ∈ fs.Goroutines, 1 ≤ x.2.ClientID) :
    (ReceiveAcknowledge fs).Acknowledged.length = n ∧
      (ReceiveAcknowledge fs).Acknowledged[0]? = some false ∧
      ∀ x ∈ (ReceiveAcknowledge fs).Goroutines, 1 ≤ x.2.ClientID := by
  rw [(ReceiveAcknowledge_first hP.2.1).2]
  exact hP

theorem noQuorum_acquire {n : Nat} {fs fs3 : DistributedFileSystem} {c ts : Int} {f : Nat}
    {sched : List (List Nat)} (hP : noQuorum n fs)
    (h : acquire fs c f sched = some (fs3, ts)) :
    fs3.Acknowledged.length = n ∧ fs3.Acknowledged[0]? = some false := by
  obtain ⟨h1, h2, h3⟩ := hP
  obtain ⟨hr, hg⟩ := (idsFrom_iff 1 fs).mp h3
  simp only [acquire] at h
  split at h
  · simp at h
  · rename_i fs4 hc
    simp only [Option.some.injEq, Prod.mk.injEq] at h
    obtain ⟨rfl, -⟩ := h
    have hf := collect_inv
      (fun s => s.Acknowledged.length = n ∧ s.Acknowledged[0]? = some false ∧
        ∀ x ∈ s.Goroutines, 1 ≤ x.2.ClientID)
      (fun s i g s1 hP hg hs => noQuorum_goroutine n s i g s1 hP hg hs)
      (fun s hP => noQuorum_receive n s hP) c _ _ _ _ ?_ hc
    · exact ⟨hf.1, hf.2.1⟩
    · refine ⟨h1, h2, ?_⟩
      intro x hx
      simp only [broadcast, List.mem_append] at hx
      rw [spawned_issue] at hx
      rcases hx with hx | hx
      · exact hg x hx
      · exact hr _ (mem_spawned hx).2.1

/-- Every operation issued on behalf of the clients `1 .. numClients` keeps
`noQuorum`. -/
theorem noQuorum_exec {n : Nat} {fs fs1 : DistributedFileSystem} {st : Step}
    (hP : noQuorum n fs) (hst : st.issuedFor n = true) (h : exec fs st = some fs1) :
    noQuorum n fs1 := by
  obtain ⟨h1, h2, h3⟩ := hP
  cases st with
  | openFile c name disk =>
    simp only [exec, Option.map_eq_some'] at h
    obtain ⟨⟨fs2, res⟩, h, rfl⟩ := h
    obtain ⟨a, _, b, d, _⟩ := OpenFile_some h
    exact ⟨by rw [b]; exact h1, by rw [b]; exact h2, by rw [idsFrom_congr 1 a d]; exact h3⟩
  | closeFile f =>
    obtain ⟨a, _, b, d, _⟩ := CloseFile_some h
    exact ⟨by rw [b]; exact h1, by rw [b]; exact h2, by rw [idsFrom_congr 1 a d]; exact h3⟩
  | readFile c f sched =>
    simp only [Step.issuedFor, decide_eq_true_eq] at hst
    obtain ⟨fs3, _, ha, _, _, _, _, _, hack, _⟩ := ReadFile_some h
    obtain ⟨a, b⟩ := noQuorum_acquire ⟨h1, h2, h3⟩ ha
    exact ⟨by rw [hack]; exact a, by rw [hack]; exact b,
      (@exec_access_inv 1 fs fs1 (.readFile c f sched) rfl h3
        (fun c1 hc1 => by simp only [Step.caller, Option.some.injEq] at hc1; omega) h).1⟩
  | writeFile c f content sched ok =>
    simp only [Step.issuedFor, decide_eq_true_eq] at hst
    obtain ⟨fs3, _, ha, _, _, _, _, _, hack, _⟩ := WriteFile_some h
    obtain ⟨a, b⟩ := noQuorum_acquire ⟨h1, h2, h3⟩ ha
    exact ⟨by rw [hack]; exact a, by rw [hack]; exact b,
      (@exec_access_inv 1 fs fs1 (.writeFile c f content sched ok) rfl h3
        (fun c1 hc1 => by simp only [Step.caller, Option.some.injEq] at hc1; omega) h).1⟩
  | sendRequest c r =>
    simp only [Step.issuedFor, Bool.and_eq_true, decide_eq_true_eq] at hst
    obtain ⟨⟨_, _, a, _, _⟩, d, e⟩ := SendRequest_frame (c := c) h
    exact ⟨by rw [e]; exact h1, by rw [SendRequest_first (c := c) hst.2.1 h]; exact h2,
      by rw [idsFrom_congr 1 a d]; exact h3⟩
  | goroutine i =>
    have hf := runGoroutines_inv
      (fun s => s.Acknowledged.length = n ∧ s.Acknowledged[0]? = some false ∧
        ∀ x ∈ s.Goroutines, 1 ≤ x.2.ClientID)
      (fun s i g s1 hP hg hs => noQuorum_goroutine n s i g s1 hP hg hs) [i] fs fs1
      ⟨h1, h2, ((idsFrom_iff 1 fs).mp h3).2⟩ h
    refine ⟨hf.1, hf.2.1, ?_⟩
    rw [idsFrom_iff]
    refine ⟨?_, hf.2.2⟩
    rw [(runGoroutines_frame h).2.2.1]
    exact ((idsFrom_iff 1 fs).mp h3).1
  | receiveAcknowledge =>
    simp only [exec, Option.some.injEq] at h
    subst h
    rw [(ReceiveAcknowledge_first h2).2]
    exact ⟨h1, h2, h3⟩

theorem noQuorum_run {n : Nat} :
    ∀ (steps : List Step) (fs fs1 : DistributedFileSystem),
      noQuorum n fs → (∀ st ∈ steps, st.issuedFor n = true) → run fs steps = some fs1 →
      noQuorum n fs1 := by
  intro steps
  induction steps with
  | nil =>
    intro fs fs1 hP _ h
    simp only [run, Option.some.injEq] at h
    exact h ▸ hP
  | cons st rest ih =>
    intro fs fs1 hP hst h
    simp only [run] at h
    split at h
    · simp at h
    · rename_i fs2 h2
      exact ih fs2 fs1 (noQuorum_exec hP (hst st (List.mem_cons_self _ _)) h2)
        (fun s hs => hst s (List.mem_cons_of_mem _ hs)) h

/-- C10. `ReceiveAcknowledge`: when every entry of `Acknowledged` is true (also
when it is empty) `Acknowledged` becomes all false of length `len(Requests)`;
when some entry is false the state is unchanged; `Requests`, `Timestamps` and
`Files` (and the heap, the log and the spawned goroutines) never change. -/
theorem ReceiveAcknowledge_post (fs : DistributedFileSystem) :
    ((∀ b ∈ fs.Acknowledged, b = true) →
      ReceiveAcknowledge fs =
        { fs with Acknowledged := List.replicate fs.Requests.length false }) ∧
    (fs.Acknowledged = [] →
      (ReceiveAcknowledge fs).Acknowledged = List.replicate fs.Requests.length false) ∧
    ((∃ b ∈ fs.Acknowledged, b = false) → ReceiveAcknowledge fs = fs) ∧
    (ReceiveAcknowledge fs).Acknowledged.length =
      (if allAcknowledged fs then fs.Requests.length else fs.Acknowledged.length) ∧
    (∀ b ∈ (ReceiveAcknowledge fs).Acknowledged, allAcknowledged fs = true → b = false) ∧
    (ReceiveAcknowledge fs).Requests = fs.Requests ∧
    (ReceiveAcknowledge fs).Timestamps = fs.Timestamps ∧
    (ReceiveAcknowledge fs).Files = fs.Files ∧
    (ReceiveAcknowledge fs).Heap = fs.Heap ∧
    (ReceiveAcknowledge fs).LogFile = fs.LogFile ∧
    (ReceiveAcknowledge fs).Goroutines = fs.Goroutines := by
  refine ⟨?_, ?_, ?_, ?_, ?_, ?_, ?_, ?_, ?_, ?_, ?_⟩
  · intro h
    have : allAcknowledged fs = true := by
      simpa [allAcknowledged, List.all_eq_true] using h
    simp [ReceiveAcknowledge, this]
  · intro h
    simp [ReceiveAcknowledge, allAcknowledged, h]
  · rintro ⟨b, hb, rfl⟩
    have : allAcknowledged fs = false := by
      rw [← Bool.not_eq_true]
      intro hall
      have := (List.all_eq_true.mp hall) false hb
      simp at this
    simp [ReceiveAcknowledge, this]
  all_goals
    unfold ReceiveAcknowledge
    split <;> simp_all

/-- C8. `SendRequest`, for a request with `ClientID >= 0`: when
`ClientID < len(Acknowledged)` the entry at index `ClientID` is set to true and
nothing else changes; otherwise the state is unchanged. The length of
`Acknowledged` and every other field are unchanged, the result depends on the
request only through its `ClientID` (not on its timestamp, its file or the
sender), `SendRequest` is idempotent and two `SendRequest` calls commute. -/
theorem SendRequest_spec (fs : DistributedFileSystem) (clientID : Int) (request : Request)
    (h : 0 ≤ request.ClientID) :
    (request.ClientID < (fs.Acknowledged.length : Int) →
      SendRequest fs clientID request =
        some { fs with Acknowledged := fs.Acknowledged.set request.ClientID.toNat true }) ∧
    (¬ request.ClientID < (fs.Acknowledged.length : Int) →
      SendRequest fs clientID request = some fs) ∧
    (∃ fs1, SendRequest fs clientID request = some fs1 ∧
      fs1.Acknowledged.length = fs.Acknowledged.length ∧
      (∀ i, i ≠ request.ClientID.toNat → fs1.Acknowledged[i]? = fs.Acknowledged[i]?) ∧
      fs1.Requests = fs.Requests ∧ fs1.Timestamps = fs.Timestamps ∧ fs1.Files = fs.Files ∧
      fs1.Heap = fs.Heap ∧ fs1.LogFile = fs.LogFile ∧ fs1.Goroutines = fs.Goroutines) ∧
    (∀ (sender : Int) (r : Request), r.ClientID = request.ClientID →
      SendRequest fs sender r = SendRequest fs clientID request) ∧
    ((SendRequest fs clientID request).bind (fun fs1 => SendRequest fs1 clientID request) =
      SendRequest fs clientID request) ∧
    (∀ (sender : Int) (r : Request), 0 ≤ r.ClientID →
      (SendRequest fs clientID request).bind (fun fs1 => SendRequest fs1 sender r) =
        (SendRequest fs sender r).bind (fun fs1 => SendRequest fs1 clientID request)) := by
  have hneg : ¬ request.ClientID < 0 := not_lt.mpr h
  refine ⟨?_, ?_, ?_, ?_, ?_, ?_⟩
  · intro hlt
    simp [SendRequest, hlt, hneg]
  · intro hge
    simp [SendRequest, hge]
  · by_cases hlt : request.ClientID < (fs.Acknowledged.length : Int)
    · refine ⟨{ fs with Acknowledged := fs.Acknowledged.set request.ClientID.toNat true },
        by simp [SendRequest, hlt, hneg], ?_⟩
      refine ⟨by simp, ?_, rfl, rfl, rfl, rfl, rfl, rfl⟩
      intro i hi
      simp [List.getElem?_set, Ne.symm hi]
    · exact ⟨fs, by simp [SendRequest, hlt], rfl, fun _ _ => rfl, rfl, rfl, rfl, rfl, rfl, rfl⟩
  · intro sender r hr
    simp [SendRequest, hr]
  · by_cases hlt : request.ClientID < (fs.Acknowledged.length : Int)
    · simp [SendRequest, hlt, hneg]
    · simp [SendRequest, hlt]
  · intro sender r hr
    have hneg2 : ¬ r.ClientID < 0 := not_lt.mpr hr
    by_cases hlt : request.ClientID < (fs.Acknowledged.length : Int) <;>
      by_cases hlt2 : r.ClientID < (fs.Acknowledged.length : Int) <;>
      simp [SendRequest, hlt, hlt2, hneg, hneg2]
    by_cases e : request.ClientID.toNat = r.ClientID.toNat
    · simp [e]
    · exact List.set_comm _ _ _ e

/-- A use of C8: client 1 sends the request of client 0 in the state built by
`main` for two clients. -/
theorem SendRequest_spec_witness :
    (0 : Int) ≤ (Request.mk 0 0 1).ClientID ∧
    SendRequest (initial 2) 1 (Request.mk 0 0 1) =
      some { initial 2 with Acknowledged := [true, false] } := by
  refine ⟨by decide, ?_⟩
  have h := (SendRequest_spec (initial 2) 1 (Request.mk 0 0 1) (by decide)).1 (by decide)
  rw [h]
  rfl

/-- C6. `OpenFile` (in a state whose `Files` holds allocated pointers only)
returns nil exactly when the name is not in `Files` and reading it from
storage fails, and then the whole state (`Files`, `Requests`, `Timestamps`,
`Acknowledged`, the spawned goroutines) is unchanged. Otherwise it returns the
pointer stored in `Files` under that name, whose file has `IsOpen` true; when
the name was cached already, it is the cached pointer, `Files` is unchanged
and the file keeps its `Content`. `OpenFile` never creates a request nor
contacts a peer. -/
theorem OpenFile_spec (fs : DistributedFileSystem) (clientID : Int) (fileName : String)
    (disk : Option String) (hv : filesValid fs = true) :
    ∃ fs1 res, OpenFile fs clientID fileName disk = some (fs1, res) ∧
      (res = none ↔ (fs.Files.lookup fileName = none ∧ disk = none)) ∧
      (res = none → fs1 = fs) ∧
      (∀ p, res = some p →
        fs1.Files.lookup fileName = some p ∧
        ∃ f, fs1.Heap[p]? = some f ∧ f.IsOpen = true ∧
          (∀ p0, fs.Files.lookup fileName = some p0 →
            p = p0 ∧ fs1.Files = fs.Files ∧
            ∃ f0, fs.Heap[p0]? = some f0 ∧ f.Content = f0.Content ∧ f.Name = f0.Name) ∧
          (fs.Files.lookup fileName = none →
            disk = some f.Content ∧ f.Name = fileName ∧ p = fs.Heap.length)) ∧
      fs1.Requests = fs.Requests ∧ fs1.Timestamps = fs.Timestamps ∧
      fs1.Acknowledged = fs.Acknowledged ∧ fs1.Goroutines = fs.Goroutines ∧
      fs1.LogFile = fs.LogFile := by
  cases hl : fs.Files.lookup fileName with
  | none =>
    cases disk with
    | none =>
      exact ⟨fs, none, by simp [OpenFile, hl], by simp, fun _ => rfl, by simp,
        rfl, rfl, rfl, rfl, rfl⟩
    | some fileContent =>
      refine ⟨{ fs with
          Heap := fs.Heap ++ [{ Name := fileName, IsOpen := true, Content := fileContent }],
          Files := (fileName, fs.Heap.length) :: fs.Files }, some fs.Heap.length,
        by simp [OpenFile, hl], by simp, by simp, ?_, rfl, rfl, rfl, rfl, rfl⟩
      intro p hp
      simp only [Option.some.injEq] at hp
      subst hp
      simp [List.lookup]
  | some p0 =>
    have hp0 : p0 < fs.Heap.length := filesValid_lookup fs hv fileName p0 hl
    have hget : fs.Heap[p0]? = some fs.Heap[p0] := List.getElem?_eq_getElem hp0
    refine ⟨{ fs with Heap := fs.Heap.set p0 { fs.Heap[p0] with IsOpen := true } }, some p0,
      by simp [OpenFile, hl, hget], by simp, by simp, ?_, rfl, rfl, rfl, rfl, rfl⟩
    intro p hp
    simp only [Option.some.injEq] at hp
    subst hp
    refine ⟨hl, { fs.Heap[p0] with IsOpen := true }, by simp [hp0], rfl, ?_, by simp⟩
    intro q hq
    simp only [Option.some.injEq] at hq
    subst hq
    exact ⟨rfl, rfl, fs.Heap[p0], hget, rfl, rfl⟩

/-- A use of C6: in the state built by `main`, opening a file that cannot be
read returns nil and leaves the state as it was. -/
theorem OpenFile_spec_witness :
    filesValid (initial 2) = true ∧
    OpenFile (initial 2) 1 "file1.txt" none = some (initial 2, none) := by
  refine ⟨by decide, ?_⟩
  obtain ⟨fs1, res, h, hiff, hsame, -⟩ :=
    OpenFile_spec (initial 2) 1 "file1.txt" none (by decide)
  have hres : res = none := hiff.mpr ⟨rfl, rfl⟩
  rw [h, hsame hres, hres]

/-- C7, as stated, fails: in the state reached from the initial state of two
clients when client 2 has opened and written `file1.txt`, the `WriteFile` call
of client 1 returns and the request it created, with timestamp 2, is an
element of `Requests`. -/
theorem request_discarded_counterexample :
    run (initial 2) [.openFile 2 "file1.txt" (some "old"), .writeFile 2 0 "by 2" [] false] =
      some afterFirstWriter ∧
    ∃ fs1, WriteFile afterFirstWriter 1 0 "by 1" [] true = some fs1 ∧
      { ClientID := 1, File := 0, Timestamp := 2 } ∈ fs1.Requests :=
  ⟨by decide, _, rfl, by decide⟩

/-- C7, amended. The request that a `ReadFile` or `WriteFile` call creates is
kept: when the call returns, `Requests` is the former `Requests` followed by
that request. No operation removes a request: after any operation the former
`Requests` is an initial segment of `Requests`. The calls do return when the
file is allocated and no client identifier is negative. -/
theorem request_kept (fs : DistributedFileSystem) (clientID : Int) (file : Nat)
    (content : String) (sched : List (List Nat)) (diskOk : Bool) :
    (∀ fs1, WriteFile fs clientID file content sched diskOk = some fs1 →
      fs1.Requests = fs.Requests ++
        [{ ClientID := clientID, File := file,
           Timestamp := (fs.Timestamps.length : Int) + 1 }]) ∧
    (∀ fs1, ReadFile fs clientID file sched = some fs1 →
      fs1.Requests = fs.Requests ++
        [{ ClientID := clientID, File := file,
           Timestamp := (fs.Timestamps.length : Int) + 1 }]) ∧
    (∀ st fs1, exec fs st = some fs1 → fs.Requests <+: fs1.Requests) ∧
    (idsFrom 0 fs = true → file < fs.Heap.length →
      (∃ fs1, WriteFile fs clientID file content sched diskOk = some fs1) ∧
      (∃ fs1, ReadFile fs clientID file sched = some fs1)) := by
  refine ⟨?_, ?_, ?_, ?_⟩
  · intro fs1 h
    obtain ⟨_, _, _, _, _, _, hr, _⟩ := WriteFile_some h
    exact hr
  · intro fs1 h
    obtain ⟨_, _, _, _, _, _, hr, _⟩ := ReadFile_some h
    exact hr
  · intro st fs1 h
    obtain ⟨h1, h2⟩ := exec_requests h
    cases hc : st.caller with
    | none => rw [(h1 hc).1]
    | some c =>
      obtain ⟨f, hr, -⟩ := h2 c hc
      rw [hr]
      exact List.prefix_append _ _
  · intro hids hf
    exact ⟨WriteFile_total fs clientID file content sched diskOk hids hf,
      ReadFile_total fs clientID file sched hids hf⟩

/-- A use of C7 amended: the request of client 1 stays in `Requests`. -/
theorem request_kept_witness :
    ∃ fs1, WriteFile afterFirstWriter 1 0 "by 1" [[0]] true = some fs1 ∧
      fs1.Requests = [{ ClientID := 2, File := 0, Timestamp := 1 },
        { ClientID := 1, File := 0, Timestamp := 2 }] := by
  obtain ⟨hw, -, -, ht⟩ := request_kept afterFirstWriter 1 0 "by 1" [[0]] true
  obtain ⟨⟨fs1, h1⟩, -⟩ := ht (by decide) (by decide)
  exact ⟨fs1, h1, hw fs1 h1⟩

/-- C2, as stated, fails: in the state reached from the initial state of two
clients when client 2 has opened and written `file1.txt`, client 1 calls
`WriteFile`; the spawned `SendRequest` runs before the only acknowledgment
check, the check finds `Acknowledged` equal to `[false, false]`, and the call
nevertheless replaces the content `by 2` of the file by `by 1`. -/
theorem quorum_counterexample :
    run (initial 2) [.openFile 2 "file1.txt" (some "old"), .writeFile 2 0 "by 2" [] false] =
      some afterFirstWriter ∧
    ∃ fs2 fs3 fs1,
      runGoroutines (broadcast (issue afterFirstWriter 1 0).1 1) [0] = some fs2 ∧
      fs2.Acknowledged = [false, false] ∧ allAcknowledged fs2 = false ∧
      acquire afterFirstWriter 1 0 [[0]] = some (fs3, 2) ∧ fs3 = ReceiveAcknowledge fs2 ∧
      allAcknowledged fs3 = false ∧
      WriteFile afterFirstWriter 1 0 "by 1" [[0]] true = some fs1 ∧
      afterFirstWriter.Heap[0]? = some { Name := "file1.txt", IsOpen := true, Content := "by 2" } ∧
      fs1.Heap[0]? = some { Name := "file1.txt", IsOpen := true, Content := "by 1" } :=
  ⟨by decide, _, _, _, rfl, by decide, by decide, rfl, by decide, by decide, rfl, by decide,
    by decide⟩

/-- C2, amended. `WriteFile` sets the file's `Content` to its content argument,
and `ReadFile` reaches its read of the file, after the acknowledgment checks
whatever they found: for every allocated file, in every state without a
negative client identifier, whatever `Acknowledged` holds and whichever
goroutines run meanwhile, both calls return, the first with the file's
`Content` equal to the argument, the second with the files as they were. -/
theorem access_without_quorum (fs : DistributedFileSystem) (clientID : Int) (file : Nat)
    (content : String) (sched : List (List Nat)) (diskOk : Bool) (f0 : File)
    (hids : idsFrom 0 fs = true) (hfile : fs.Heap[file]? = some f0) :
    (∃ fs1, WriteFile fs clientID file content sched diskOk = some fs1 ∧
      fs1.Heap[file]? = some { f0 with Content := content }) ∧
    (∃ fs2, ReadFile fs clientID file sched = some fs2 ∧ fs2.Heap = fs.Heap) := by
  have hlt : file < fs.Heap.length := by
    obtain ⟨hlt, -⟩ := List.getElem?_eq_some.mp hfile
    exact hlt
  constructor
  · obtain ⟨fs1, h1⟩ := WriteFile_total fs clientID file content sched diskOk hids hlt
    obtain ⟨_, g0, _, hg0, hh, _⟩ := WriteFile_some h1
    rw [hfile, Option.some.injEq] at hg0
    subst hg0
    exact ⟨fs1, h1, by rw [hh]; simp [hlt]⟩
  · obtain ⟨fs2, h2⟩ := ReadFile_total fs clientID file sched hids hlt
    obtain ⟨_, _, _, _, hh, _⟩ := ReadFile_some h2
    exact ⟨fs2, h2, hh⟩

/-- A use of C2 amended, in a state where no client is acknowledged. -/
theorem access_without_quorum_witness :
    afterFirstWriter.Acknowledged = [false, false] ∧
    ∃ fs1, WriteFile afterFirstWriter 1 0 "by 1" [[0]] true = some fs1 ∧
      fs1.Heap[0]? = some { Name := "file1.txt", IsOpen := true, Content := "by 1" } :=
  ⟨rfl, (access_without_quorum afterFirstWriter 1 0 "by 1" [[0]] true
    { Name := "file1.txt", IsOpen := true, Content := "by 2" } (by decide) (by decide)).1⟩

/-- C4, as stated, fails: with two known clients, in the state where client 1
has opened `file1.txt`, the `WriteFile` call of client 1 spawns no
`SendRequest` at all, while client 2 is a peer of client 1. -/
theorem broadcast_counterexample :
    run (initial 2) [.openFile 1 "file1.txt" (some "old")] = some afterOpen ∧
    targets (spawned 1 (issue afterOpen 1 0).1.Requests) = [] ∧
    (broadcast (issue afterOpen 1 0).1 1).Goroutines = [] ∧
    (∃ fs1, WriteFile afterOpen 1 0 "by 1" [] true = some fs1 ∧ fs1.Goroutines = []) ∧
    knownPeers 2 1 = [2] :=
  ⟨by decide, by decide, by decide, ⟨_, rfl, by decide⟩, by decide⟩

/-- C4, amended. A `ReadFile` or `WriteFile` call by `c` issues one
`SendRequest` for each request in `Requests` whose `ClientID` differs from `c`,
addressed to that `ClientID`: the clients addressed are the clients other than
`c` that have issued a request so far. When no goroutine runs during the call,
these calls are the ones added to the waiting goroutines. -/
theorem broadcast_targets (fs : DistributedFileSystem) (c : Int) (file : Nat) :
    (broadcast (issue fs c file).1 c).Goroutines =
      fs.Goroutines ++ (fs.Requests.filter (fun r => r.ClientID ≠ c)).map (fun r => (c, r)) ∧
    targets (spawned c (issue fs c file).1.Requests) =
      (fs.Requests.map (fun r => r.ClientID)).filter (fun i => i ≠ c) ∧
    (∀ i, i ∈ targets (spawned c (issue fs c file).1.Requests) ↔
      i ≠ c ∧ ∃ r ∈ fs.Requests, r.ClientID = i) ∧
    (∀ content diskOk fs1, WriteFile fs c file content [] diskOk = some fs1 →
      fs1.Goroutines = fs.Goroutines ++ spawned c (issue fs c file).1.Requests) ∧
    (∀ fs1, ReadFile fs c file [] = some fs1 →
      fs1.Goroutines = fs.Goroutines ++ spawned c (issue fs c file).1.Requests) := by
  have htargets : targets (spawned c fs.Requests) =
      (fs.Requests.map (fun r => r.ClientID)).filter (fun i => i ≠ c) := by
    simp only [targets, spawned, List.map_map, List.filter_map]
    rfl
  refine ⟨?_, ?_, ?_, ?_, ?_⟩
  · simp only [broadcast]
    rw [spawned_issue]
    rfl
  · rw [spawned_issue, htargets]
  · intro i
    rw [spawned_issue, htargets]
    simp only [List.mem_filter, List.mem_map, decide_eq_true_eq]
    tauto
  · intro content diskOk fs1 h
    obtain ⟨fs3, _, ha, _, _, _, _, _, _, hg⟩ := WriteFile_some h
    obtain ⟨fs4, h4, hg4⟩ := acquire_idle fs c file
    rw [ha, Option.some.injEq, Prod.mk.injEq] at h4
    rw [hg, h4.1, hg4, spawned_issue]
  · intro fs1 h
    obtain ⟨fs3, _, ha, _, _, _, _, _, _, hg⟩ := ReadFile_some h
    obtain ⟨fs4, h4, hg4⟩ := acquire_idle fs c file
    rw [ha, Option.some.injEq, Prod.mk.injEq] at h4
    rw [hg, h4.1, hg4, spawned_issue]

/-- C3. Starting from a state with `Timestamps` and `Requests` empty, after any
sequence of `ReadFile` and `WriteFile` calls: the call at position `k`
(counting from 0) appends the timestamp `k + 1` to `Timestamps` and one
request, with that timestamp and the caller's identifier, to `Requests`; at the
end the timestamps recorded and the timestamps of the requests are
`1, 2, .., n` in issue order, strictly increasing, and no two requests carry
the same timestamp. The calls return when the files are allocated and no
client identifier is negative. -/
theorem timestamps_issue_order (fs0 : DistributedFileSystem) (steps : List Step)
    (ht0 : fs0.Timestamps = []) (hr0 : fs0.Requests = [])
    (hacc : ∀ st ∈ steps, st.isAccess = true) :
    (∀ fs1, run fs0 steps = some fs1 →
      fs1.Timestamps = (List.range' 1 steps.length).map (fun (k : Nat) => (k : Int)) ∧
      fs1.Requests.map (fun r => r.Timestamp) =
        (List.range' 1 steps.length).map (fun (k : Nat) => (k : Int)) ∧
      fs1.Requests.map (fun r => r.ClientID) = steps.filterMap Step.caller ∧
      fs1.Requests.length = steps.length ∧
      (fs1.Requests.map (fun r => r.Timestamp)).Pairwise (fun a b => a < b) ∧
      (fs1.Requests.map (fun r => r.Timestamp)).Nodup) ∧
    (∀ k st fsk fsk1, steps[k]? = some st → runTo fs0 steps k = some fsk →
      runTo fs0 steps (k + 1) = some fsk1 →
      fsk1.Timestamps = fsk.Timestamps ++ [(k : Int) + 1] ∧
      ∃ r, fsk1.Requests = fsk.Requests ++ [r] ∧ r.Timestamp = (k : Int) + 1 ∧
        st.caller = some r.ClientID) ∧
    (fs0.Goroutines = [] → (∀ st ∈ steps, ∀ c, st.caller = some c → 0 ≤ c) →
      (∀ st ∈ steps, ∀ f, st.file = some f → f < fs0.Heap.length) →
      ∃ fs1, run fs0 steps = some fs1) := by
  refine ⟨?_, ?_, ?_⟩
  · intro fs1 h
    obtain ⟨h1, h2, h3⟩ := run_access steps fs0 fs1 hacc h
    simp only [ht0, hr0, List.nil_append, List.length_nil, Nat.zero_add, List.map_nil] at h1 h2 h3
    have hpw : ((List.range' 1 steps.length).map (fun (k : Nat) => (k : Int))).Pairwise
        (fun a b => a < b) := by
      rw [List.pairwise_map]
      exact (List.pairwise_lt_range' 1 steps.length).imp (fun hab => by exact_mod_cast hab)
    refine ⟨h1, h2, h3, ?_, h2 ▸ hpw, h2 ▸ (hpw.imp (fun hab => ne_of_lt hab))⟩
    have := congrArg List.length h2
    simpa using this
  · intro k st fsk fsk1 hst hk hk1
    obtain ⟨fsk2, hk2, he⟩ := runTo_succ hst hk1
    rw [hk, Option.some.injEq] at hk2
    subst hk2
    have hklt : k < steps.length := (List.getElem?_eq_some.mp hst).1
    have hlen : fsk.Timestamps.length = k := by
      obtain ⟨h1, -⟩ := run_access (steps.take k) fs0 fsk
        (fun s hs => hacc s (List.mem_of_mem_take hs)) hk
      rw [h1, ht0]
      simp [Nat.min_eq_left (le_of_lt hklt)]
    obtain ⟨c, hc⟩ := Option.isSome_iff_exists.mp (hacc st (List.getElem?_mem hst))
    obtain ⟨f, hr, ht⟩ := (exec_requests he).2 c hc
    rw [hlen] at hr ht
    exact ⟨ht, _, hr, rfl, hc⟩
  · intro hg hc hf
    exact run_access_total steps fs0 hacc (by simp [idsFrom, hr0, hg]) hc hf

/-- A use of C3: from the state where client 1 of two clients has opened
`file1.txt`, client 1 writes, client 2 writes, client 1 reads. -/
theorem timestamps_issue_order_witness :
    ∃ fs1, run afterOpen [.writeFile 1 0 "by 1" [] true, .writeFile 2 0 "by 2" [[0]] true,
        .readFile 1 0 [[0]]] = some fs1 ∧
      fs1.Timestamps = [1, 2, 3] ∧
      fs1.Requests.map (fun r => r.Timestamp) = [1, 2, 3] ∧
      fs1.Requests.map (fun r => r.ClientID) = [1, 2, 1] := by
  have h := timestamps_issue_order afterOpen
    [.writeFile 1 0 "by 1" [] true, .writeFile 2 0 "by 2" [[0]] true, .readFile 1 0 [[0]]]
    rfl rfl (by decide)
  obtain ⟨fs1, h1⟩ := h.2.2 rfl (by decide) (by decide)
  obtain ⟨a, b, c, -⟩ := h.1 fs1 h1
  exact ⟨fs1, h1, a, b, c⟩

/-- C5. Last writer wins. From any state in which `file` is allocated, for a
non-empty sequence of `WriteFile` calls on `file` (by any clients, whatever the
acknowledgments, the goroutines that run meanwhile and the outcome of the disk
writes): each call changes the heap by exactly one update, which sets the
`Content` of `file` to the call's content argument; after each call of the
sequence the heap is the initial heap with the `Content` of `file` set to that
call's argument; so after the sequence the `Content` is the argument of the
last call. The calls return when no client identifier is negative. -/
theorem last_writer_wins (fs : DistributedFileSystem) (file : Nat) (f0 : File)
    (steps : List Step) (hfile : fs.Heap[file]? = some f0) (hne : steps ≠ [])
    (hw : ∀ st ∈ steps, st.isWriteOn file = true) :
    (∀ (s s1 : DistributedFileSystem) (g : File) (c : Int) (content : String)
        (sched : List (List Nat)) (diskOk : Bool),
      s.Heap[file]? = some g → WriteFile s c file content sched diskOk = some s1 →
      s1.Heap = s.Heap.set file { g with Content := content }) ∧
    (∀ k st content fsk1, steps[k]? = some st → st.content = some content →
      runTo fs steps (k + 1) = some fsk1 →
      fsk1.Heap = fs.Heap.set file { f0 with Content := content } ∧
      fsk1.Heap[file]? = some { f0 with Content := content }) ∧
    (∀ fs1, run fs steps = some fs1 →
      ∃ content, (steps.getLast hne).content = some content ∧
        fs1.Heap = fs.Heap.set file { f0 with Content := content } ∧
        fs1.Heap[file]? = some { f0 with Content := content }) ∧
    (idsFrom 0 fs = true → (∀ st ∈ steps, ∀ c, st.caller = some c → 0 ≤ c) →
      ∃ fs1, run fs steps = some fs1) := by
  have hlt : file < fs.Heap.length := (List.getElem?_eq_some.mp hfile).1
  have hstep : ∀ k st content fsk1, steps[k]? = some st → st.content = some content →
      runTo fs steps (k + 1) = some fsk1 →
      fsk1.Heap = fs.Heap.set file { f0 with Content := content } ∧
      fsk1.Heap[file]? = some { f0 with Content := content } := by
    intro k st content fsk1 hst hc hk1
    obtain ⟨fsk, hk, he⟩ := runTo_succ hst hk1
    obtain ⟨c0, h0⟩ := run_writes file (steps.take k) fs fsk f0
      (fun s hs => hw s (List.mem_of_mem_take hs)) hfile hk
    have hg : fsk.Heap[file]? = some { f0 with Content := c0 } := by
      rw [h0]; simp [hlt]
    have hh := isWriteOn_exec (hw st (List.getElem?_mem hst)) hc hg he
    have heq : fsk1.Heap = fs.Heap.set file { f0 with Content := content } := by
      rw [hh, h0, List.set_set]
    exact ⟨heq, by rw [heq]; simp [hlt]⟩
  refine ⟨?_, hstep, ?_, ?_⟩
  · intro s s1 g c content sched diskOk hg h
    obtain ⟨_, g0, _, hg0, hh, _⟩ := WriteFile_some h
    rw [hg, Option.some.injEq] at hg0
    subst hg0
    exact hh
  · intro fs1 h
    obtain ⟨content, hc, -⟩ := isWriteOn_content (hw _ (List.getLast_mem hne))
    have hpos : 0 < steps.length := List.length_pos.mpr hne
    have hst : steps[steps.length - 1]? = some (steps.getLast hne) := by
      rw [List.getLast_eq_getElem]
      exact List.getElem?_eq_getElem _
    have hrun : runTo fs steps (steps.length - 1 + 1) = some fs1 := by
      simp only [runTo]
      rw [Nat.sub_add_cancel hpos, List.take_length]
      exact h
    obtain ⟨a, b⟩ := hstep _ _ content fs1 hst hc hrun
    exact ⟨content, hc, a, b⟩
  · intro hids hc
    exact run_access_total steps fs (fun s hs => (isWriteOn_content (hw s hs)).choose_spec.2.1)
      hids hc (fun s hs f hf => by
        obtain ⟨_, _, _, hfile2⟩ := isWriteOn_content (hw s hs)
        rw [hfile2, Option.some.injEq] at hf
        exact hf ▸ hlt)

/-- A use of C5: the three clients of `main` write `file1.txt` one after the
other, the second disk write failing; the content is the one of client 3. -/
theorem last_writer_wins_witness :
    ∃ fs1, run { afterOpen with Acknowledged := [false, false, false] }
        [.writeFile 1 0 "Content written by Client 1" [] true,
         .writeFile 2 0 "Content written by Client 2" [[0]] false,
         .writeFile 3 0 "Content written by Client 3" [[1], [0]] true] = some fs1 ∧
      fs1.Heap[0]? =
        some { Name := "file1.txt", IsOpen := true, Content := "Content written by Client 3" } := by
  have h := last_writer_wins { afterOpen with Acknowledged := [false, false, false] } 0
    { Name := "file1.txt", IsOpen := true, Content := "old" }
    [.writeFile 1 0 "Content written by Client 1" [] true,
     .writeFile 2 0 "Content written by Client 2" [[0]] false,
     .writeFile 3 0 "Content written by Client 3" [[1], [0]] true]
    (by decide) (by simp) (by decide)
  obtain ⟨fs1, h1⟩ := h.2.2.2 (by decide) (by decide)
  obtain ⟨content, hc, -, hget⟩ := h.2.2.1 fs1 h1
  simp only [List.getLast, Step.content, Option.some.injEq] at hc
  subst hc
  exact ⟨fs1, h1, hget⟩

/-- C9. In every state reached from the initial state of `main` with
`numClients >= 1` by operations issued on behalf of the clients
`1 .. numClients`, `Acknowledged` has `numClients` entries and its entry 0 is
false; so the test of `ReceiveAcknowledge` fails and the call changes nothing,
and a `SendRequest` for a request of client `numClients` takes the
invalid-client-ID branch and changes nothing. -/
theorem quorum_unreachable (numClients : Nat) (steps : List Step) (fs : DistributedFileSystem)
    (hN : 1 ≤ numClients) (hsteps : ∀ st ∈ steps, st.issuedFor numClients = true)
    (hrun : run (initial numClients) steps = some fs) :
    fs.Acknowledged.length = numClients ∧
    fs.Acknowledged[0]? = some false ∧
    allAcknowledged fs = false ∧
    ReceiveAcknowledge fs = fs ∧
    (∀ (sender : Int) (r : Request), r.ClientID = (numClients : Int) →
      ¬ r.ClientID < (fs.Acknowledged.length : Int) ∧ SendRequest fs sender r = some fs) := by
  have h0 : noQuorum numClients (initial numClients) := by
    refine ⟨by simp [initial], ?_, by simp [initial, idsFrom]⟩
    obtain ⟨m, rfl⟩ : ∃ m, numClients = m + 1 := ⟨numClients - 1, by omega⟩
    simp [initial, List.replicate_succ]
  obtain ⟨h1, h2, -⟩ := noQuorum_run steps _ fs h0 hsteps hrun
  obtain ⟨h3, h4⟩ := ReceiveAcknowledge_first h2
  refine ⟨h1, h2, h3, h4, ?_⟩
  intro sender r hr
  have hnot : ¬ r.ClientID < (fs.Acknowledged.length : Int) := by
    rw [h1, hr]; exact lt_irrefl _
  exact ⟨hnot, by simp [SendRequest, hnot]⟩

/-- A use of C9: a run of the two clients of `main` in which every spawned
goroutine runs. -/
theorem quorum_unreachable_witness :
    ∃ fs, run (initial 2)
        [.openFile 1 "file1.txt" (some "old"), .openFile 2 "file1.txt" (some "old"),
         .writeFile 2 0 "by 2" [] true, .writeFile 1 0 "by 1" [[0]] true,
         .readFile 2 0 [], .goroutine 0, .receiveAcknowledge, .readFile 1 0 [[0], [0]],
         .closeFile 0] = some fs ∧
      fs.Acknowledged = [false, true] ∧ ReceiveAcknowledge fs = fs := by
  cases h : run (initial 2)
      [.openFile 1 "file1.txt" (some "old"), .openFile 2 "file1.txt" (some "old"),
       .writeFile 2 0 "by 2" [] true, .writeFile 1 0 "by 1" [[0]] true,
       .readFile 2 0 [], .goroutine 0, .receiveAcknowledge, .readFile 1 0 [[0], [0]],
       .closeFile 0] with
  | none => exact absurd h (by decide)
  | some fs =>
    have hq := quorum_unreachable 2 _ fs (by decide) (by decide) h
    refine ⟨fs, rfl, ?_, hq.2.2.2.1⟩
    have hfs : some fs = _ := h.symm
    have : (some fs).map (fun s => s.Acknowledged) = some [false, true] := by
      rw [hfs]; decide
    simpa using this

/-! ### Mutual exclusion -/

theorem Control.holderOk_goto {cfg : Control} {i : Nat} {l : Loc} (h : cfg.holderOk)
    (hl : l.locked = true → cfg.RequestMutex = some i) : (cfg.goto i l).holderOk := by
  intro j hj
  simp only [Control.goto] at hj ⊢
  split at hj
  · rename_i hji
    subst hji
    exact hl hj
  · exact h j hj

theorem Control.holderOk_lock {cfg cfg1 : Control} {i : Nat} {l : Loc} (h : cfg.holderOk)
    (hs : cfg.lock i l = some cfg1) : cfg1.holderOk := by
  unfold Control.lock at hs
  split at hs
  · rename_i hfree
    simp only [Option.some.injEq] at hs
    subst hs
    intro j hj
    simp only [Control.goto] at hj ⊢
    split at hj
    · rename_i hji
      rw [hji]
    · have := h j hj
      rw [hfree] at this
      simp at this
  · simp at hs

theorem Control.holderOk_unlock {cfg : Control} {i : Nat} {l : Loc} (h : cfg.holderOk)
    (hi : cfg.RequestMutex = some i) (hl : l.locked = false) : (cfg.unlock i l).holderOk := by
  intro j hj
  simp only [Control.unlock, Control.goto] at hj ⊢
  split at hj
  · rw [hl] at hj
    simp at hj
  · rename_i hji
    have := h j hj
    rw [hi, Option.some.injEq] at this
    exact absurd this.symm hji

theorem Control.holderOk_advance {cfg cfg1 : Control} {i : Nat} {opened : Option Nat}
    (h : cfg.holderOk) (hs : cfg.advance i opened = some cfg1) : cfg1.holderOk := by
  unfold Control.advance at hs
  split at hs
  · have hi := h i
    split at hs
    · split at hs <;>
      · simp only [Option.some.injEq] at hs
        subst hs
        exact Control.holderOk_goto h (by simp [Loc.locked])
    · exact Control.holderOk_lock h hs
    · rename_i hloc
      simp only [Option.some.injEq] at hs
      subst hs
      exact Control.holderOk_goto h (fun _ => hi (by simp [hloc, Loc.locked]))
    · rename_i hloc
      simp only [Option.some.injEq] at hs
      subst hs
      exact Control.holderOk_goto h (fun _ => hi (by simp [hloc, Loc.locked]))
    · rename_i hloc
      simp only [Option.some.injEq] at hs
      subst hs
      exact Control.holderOk_unlock h (hi (by simp [hloc, Loc.locked])) rfl
    · exact Control.holderOk_lock h hs
    · rename_i hloc
      simp only [Option.some.injEq] at hs
      subst hs
      exact Control.holderOk_goto h (fun _ => hi (by simp [hloc, Loc.locked]))
    · rename_i hloc
      simp only [Option.some.injEq] at hs
      subst hs
      exact Control.holderOk_goto h (fun _ => hi (by simp [hloc, Loc.locked]))
    · rename_i hloc
      simp only [Option.some.injEq] at hs
      subst hs
      exact Control.holderOk_unlock h (hi (by simp [hloc, Loc.locked])) rfl
    · simp only [Option.some.injEq] at hs
      subst hs
      exact Control.holderOk_goto h (by simp [Loc.locked])
    · simp at hs
  · simp at hs

theorem Control.holderOk_interleave :
    ∀ (sched : List (Nat × Option Nat)) (cfg : Control),
      cfg.holderOk → (cfg.interleave sched).holderOk := by
  intro sched
  induction sched with
  | nil => intro cfg h; exact h
  | cons p sched ih =>
    intro cfg h
    obtain ⟨i, opened⟩ := p
    simp only [Control.interleave]
    split
    · exact ih cfg h
    · rename_i cfg1 hs
      exact ih cfg1 (Control.holderOk_advance h hs)

theorem Loc.locked_of_critical {l : Loc} {file : Nat} (h : l.critical = some file) :
    l.locked = true := by
  cases l <;> simp_all [Loc.critical, Loc.locked]

/-- C1. Mutual exclusion. After any interleaving of the steps of the client
goroutines started by `main`, whatever their number and the files they have
opened, two distinct clients are never both inside a critical section (the
content update of `WriteFile`, the content read of `ReadFile`), on the same
file `R` or on any two files: at each moment the clients inside a critical
section are at most one, the holder of `RequestMutex`. -/
theorem mutual_exclusion (numClients : Nat) (sched : List (Nat × Option Nat)) (i j R : Nat) :
    (i ≠ j →
      ¬ ((((Control.initial numClients).interleave sched).loc i).critical = some R ∧
         (((Control.initial numClients).interleave sched).loc j).critical = some R)) ∧
    (∀ R1 R2, (((Control.initial numClients).interleave sched).loc i).critical = some R1 →
      (((Control.initial numClients).interleave sched).loc j).critical = some R2 → i = j) ∧
    ((((Control.initial numClients).interleave sched).loc i).critical = some R →
      ((Control.initial numClients).interleave sched).RequestMutex = some i) := by
  have h0 : (Control.initial numClients).holderOk := by
    intro k hk
    simp [Control.initial, Loc.locked] at hk
  have h := Control.holderOk_interleave sched _ h0
  have key : ∀ R1 R2,
      (((Control.initial numClients).interleave sched).loc i).critical = some R1 →
      (((Control.initial numClients).interleave sched).loc j).critical = some R2 → i = j := by
    intro R1 R2 hi hj
    have a := h i (Loc.locked_of_critical hi)
    have b := h j (Loc.locked_of_critical hj)
    rw [a, Option.some.injEq] at b
    exact b
  exact ⟨fun hne hboth => hne (key R R hboth.1 hboth.2), key,
    fun hi => h i (Loc.locked_of_critical hi)⟩

/-- A use of C1: clients 1 and 2 (goroutines 0 and 1) have opened the same
file; goroutine 0 is updating its content and goroutine 1, named four times,
is still waiting at the entry of `WriteFile`. -/
theorem mutual_exclusion_witness :
    (((Control.initial 2).interleave
        [(0, some 0), (1, some 0), (0, none), (1, none), (0, none), (1, none), (1, none),
         (1, none)]).loc 0).critical = some 0 ∧
    ((Control.initial 2).interleave
        [(0, some 0), (1, some 0), (0, none), (1, none), (0, none), (1, none), (1, none),
         (1, none)]).loc 1 = Loc.writeEntry 0 ∧
    ((Control.initial 2).interleave
        [(0, some 0), (1, some 0), (0, none), (1, none), (0, none), (1, none), (1, none),
         (1, none)]).RequestMutex = some 0 :=
  ⟨by decide, by decide,
    (mutual_exclusion 2 [(0, some 0), (1, some 0), (0, none), (1, none), (0, none), (1, none),
      (1, none), (1, none)] 0 1 0).2.2 (by decide)⟩

end Ricart
